import Mathlib

/-!
Verification development for the Caldav-Tasks-API repository.

The Python sources under `caldav_tasks_api/utils/data.py` (the VTODO codec:
`TaskData.to_ical`, `TaskData.from_ical`, the `XProperties` mapping) and
`caldav_tasks_api/caldav_tasks_api.py` (`TasksAPI.update_task`) are embedded
shallowly.  Text is modelled as `List Char` (`Str`); Python `str` methods used
by the code (`replace`, `splitlines`, `split`, `strip`, `find`, slicing,
`upper`, `lower`, `in`) are given faithful executable models below.  Machine
integers are Python bignums, so fields use `Int`/`Nat` directly.  The fallible
`int(float(value))` conversion in `from_ical` is modelled with `Option`:
`none` stands for the uncaught `OverflowError` that `int()` raises on an
infinite float (the surrounding `except ValueError` does not catch it).
-/

abbrev Str := List Char

/-! ## Python string primitives -/

/-- Python `s.replace(p, r)` for a one-character pattern `p`:
every occurrence of `p` is replaced by `r`, scanning left to right. -/
def replC (p : Char) (r : Str) : Str → Str
  | [] => []
  | c :: t => if c = p then r ++ replC p r t else c :: replC p r t

/-- Python `s.replace(pq, r)` for a two-character pattern `p,q`:
non-overlapping occurrences are replaced left to right. -/
def replCC (p q : Char) (r : Str) : Str → Str
  | [] => []
  | [c] => [c]
  | c :: d :: t =>
    if c = p ∧ d = q then r ++ replCC p q r t
    else c :: replCC p q r (d :: t)

/-- The line boundaries of Python `str.splitlines()`: LF (10), CR (13),
VT (11), FF (12), FS (28), GS (29), RS (30), NEL (133), LINE SEPARATOR
(8232) and PARAGRAPH SEPARATOR (8233). -/
def isLineBreak (c : Char) : Bool :=
  c.toNat = 10 ∨ c.toNat = 13 ∨ c.toNat = 11 ∨ c.toNat = 12 ∨
  c.toNat = 28 ∨ c.toNat = 29 ∨ c.toNat = 30 ∨ c.toNat = 133 ∨
  c.toNat = 8232 ∨ c.toNat = 8233

/-- Python `str.splitlines()`: splits at every `isLineBreak` character,
with `\r\n` counting as a single boundary.  No trailing empty line is
produced. -/
def splitlines : Str → List Str
  | [] => []
  | '\r' :: '\n' :: t => [] :: splitlines t
  | c :: t =>
    if isLineBreak c then [] :: splitlines t
    else
      match splitlines t with
      | [] => [[c]]
      | h :: r => (c :: h) :: r

/-- Python `s.split(",")`: full split, keeping empty pieces. -/
def splitComma : Str → List Str
  | [] => [[]]
  | ',' :: t => [] :: splitComma t
  | c :: t =>
    match splitComma t with
    | [] => [[c]]
    | h :: r => (c :: h) :: r

/-- The part of `s` before the first occurrence of `c`
(`s.split(c, 1)[0]` when `c` occurs in `s`, all of `s` otherwise). -/
def takeUntil (c : Char) (s : Str) : Str := s.takeWhile (fun a => a ≠ c)

/-- The part of `s` after the first occurrence of `c`
(`s.split(c, 1)[-1]` when `c` occurs in `s`, the empty string otherwise). -/
def afterFirst (c : Char) (s : Str) : Str := (s.dropWhile (fun a => a ≠ c)).drop 1

/-- Python `s.split("-", 2)`: at most two splits, at the first two hyphens. -/
def splitHyphen2 (s : Str) : List Str :=
  if ('-' ∈ s) then
    let a := takeUntil '-' s
    let r := afterFirst '-' s
    if ('-' ∈ r) then [a, takeUntil '-' r, afterFirst '-' r] else [a, r]
  else [s]

/-- Index of the first occurrence of `pat` in `s` (Python `s.find(pat)`,
with `none` for `-1`). -/
def findSub : Str → Str → Option Nat
  | [], pat => if pat.isPrefixOf ([] : Str) then some 0 else none
  | c :: t, pat =>
    if pat.isPrefixOf (c :: t) then some 0
    else (findSub t pat).map (· + 1)

/-- Python `pat in s` for strings. -/
def containsSub (s pat : Str) : Bool := (findSub s pat).isSome

/-- Python slice `s[a:b]` for `0 ≤ a ≤ b`. -/
def pySlice (s : Str) (a b : Nat) : Str := (s.drop a).take (b - a)

/-- The whitespace characters stripped by Python `str.strip()` (ASCII part). -/
def isPySpace (c : Char) : Bool :=
  c = ' ' ∨ c = '\t' ∨ c = '\n' ∨ c = '\r' ∨ c = '\x0b' ∨ c = '\x0c'

/-- Python `s.strip()` (ASCII whitespace; the code never feeds it
non-ASCII whitespace). -/
def pyStrip (s : Str) : Str :=
  ((s.dropWhile isPySpace).reverse.dropWhile isPySpace).reverse

/-- Python `s.upper()` (ASCII; property names here are ASCII). -/
def toUpperStr (s : Str) : Str := s.map Char.toUpper

/-- Python `s.lower()` (ASCII). -/
def toLowerStr (s : Str) : Str := s.map Char.toLower

/-- Joins strings with a separator character (Python `c.join(xs)`). -/
def joinWith (c : Char) : List Str → Str
  | [] => []
  | [x] => x
  | x :: y :: r => x ++ c :: joinWith c (y :: r)

/-- Concatenation of `ls`, each element terminated by a newline. -/
def joinNl (ls : List Str) : Str := (ls.map (fun l => l ++ ['\n'])).flatten

/-! ## Decimal printing and Python numeric parsing -/

/-- Digit character for `d < 10`. -/
def digitChar (d : Nat) : Char := Char.ofNat (48 + d)

/-- Value of a decimal digit character. -/
def digitVal (c : Char) : Option Nat :=
  if '0' ≤ c ∧ c ≤ '9' then some (c.toNat - 48) else none

/-- Fuel-driven core of decimal printing (structural, so the kernel can
evaluate it). -/
def natToStrAux : Nat → Nat → Str → Str
  | 0, _, acc => acc
  | fuel + 1, n, acc =>
    if n < 10 then digitChar n :: acc
    else natToStrAux fuel (n / 10) (digitChar (n % 10) :: acc)

/-- Decimal representation of a natural number (Python `str(n)` / f-string). -/
def natToStr (n : Nat) : Str := natToStrAux (n + 1) n []

/-- Decimal representation of an integer (Python `str(z)` / f-string). -/
def intToStr (z : Int) : Str :=
  if z < 0 then '-' :: natToStr z.natAbs else natToStr z.natAbs

/-- Value of a plain digit string, leftmost digit first. -/
def digitsVal (s : Str) : Nat :=
  s.foldl (fun a c => a * 10 + ((digitVal c).getD 0)) 0

/-- Python's digit-group syntax for numeric literals passed to `int()` and
`float()`: a non-empty digit sequence with single underscores allowed
strictly between digits.  Returns the digits with underscores removed. -/
def digitsU : Str → Option Str
  | [] => none
  | [c] => if (digitVal c).isSome then some [c] else none
  | c :: '_' :: t2 =>
    if (digitVal c).isSome then (digitsU t2).map (fun r => c :: r) else none
  | c :: d :: t2 =>
    if (digitVal c).isSome then (digitsU (d :: t2)).map (fun r => c :: r)
    else none

/-- Python `int(s)` on a string: strip whitespace, optional sign, digits
with underscores.  `none` models a `ValueError`.  (Non-ASCII digits are not
modelled.) -/
def pyIntParse (s : Str) : Option Int :=
  match pyStrip s with
  | '+' :: t => (digitsU t).map (fun ds => (digitsVal ds : Int))
  | '-' :: t => (digitsU t).map (fun ds => -(digitsVal ds : Int))
  | t => (digitsU t).map (fun ds => (digitsVal ds : Int))
/-- Result of Python `float(s)`.  A finite value is kept exactly as
`num * 10 ^ scale` (binary64 rounding of finite values is not modelled; the
code only relies on the conversion where it is exact, and every concrete
evaluation below stays in that range).  Magnitudes of at least `2 ^ 1024`
overflow to an infinity, as in CPython (the exact rounding boundary just
below that power is not modelled). -/
inductive PyFloat where
  | fin (num : Int) (scale : Int)
  | inf
  | ninf
  | nan
deriving DecidableEq, Repr

/-- Whether `|num * 10 ^ scale| ≥ 2 ^ 1024` (the double-precision overflow
range). -/
def floatTooBig (num : Int) (scale : Int) : Bool :=
  if 0 ≤ scale then num.natAbs * 10 ^ scale.toNat ≥ 2 ^ 1024
  else num.natAbs ≥ 2 ^ 1024 * 10 ^ (-scale).toNat

/-- Splits at the first character satisfying `p`; `none` if absent. -/
def splitAtFirst (p : Char → Bool) : Str → Str × Option Str
  | [] => ([], none)
  | c :: t =>
    if p c then ([], some t)
    else
      match splitAtFirst p t with
      | (a, b) => (c :: a, b)

/-- Sign handling shared by Python numeric parsing: a leading `+` or `-` is
consumed; the flag is whether the value is negated. -/
def pySign : Str → Bool × Str
  | '+' :: t => (false, t)
  | '-' :: t => (true, t)
  | t => (false, t)

/-- Exponent part of a Python float literal (`none` when no `e`/`E` was
present; inner `none` models a `ValueError`). -/
def pyExpVal : Option Str → Option Int
  | none => some 0
  | some et =>
    if (pySign et).1 then
      (digitsU (pySign et).2).map (fun ds => -(digitsVal ds : Int))
    else (digitsU (pySign et).2).map (fun ds => (digitsVal ds : Int))

/-- Mantissa (integer and fractional digits) of a Python float literal,
combined with the sign and exponent into the final value. -/
def pyMantVal (neg : Bool) (ex : Int) (mant : Str) : Option PyFloat :=
  let ip := (splitAtFirst (fun c => c = '.') mant).1
  let fp := ((splitAtFirst (fun c => c = '.') mant).2).getD []
  if ('.' ∈ fp) then none
  else if ip = [] ∧ fp = [] then none
  else
    let ipd : Option Str := if ip = [] then some [] else digitsU ip
    let fpd : Option Str := if fp = [] then some [] else digitsU fp
    match ipd, fpd with
    | some di, some df =>
      let n : Nat := digitsVal (di ++ df)
      let num : Int := if neg then -(n : Int) else (n : Int)
      let sc : Int := ex - df.length
      if floatTooBig num sc then
        some (if neg then PyFloat.ninf else PyFloat.inf)
      else some (PyFloat.fin num sc)
    | _, _ => none

/-- Python `float(s)`: strip, optional sign, then `inf`/`infinity`/`nan`
(case-insensitive) or a decimal mantissa with optional fraction and optional
exponent, underscores allowed inside digit groups.  `none` models a
`ValueError`. -/
def pyFloatParse (s : Str) : Option PyFloat :=
  let st := pyStrip s
  let neg := (pySign st).1
  let body := (pySign st).2
  let lb := toLowerStr body
  if lb = "inf".data ∨ lb = "infinity".data then
    some (if neg then PyFloat.ninf else PyFloat.inf)
  else if lb = "nan".data then some PyFloat.nan
  else
    match pyExpVal (splitAtFirst (fun c => c = 'e' ∨ c = 'E') body).2 with
    | none => none
    | some ex =>
      pyMantVal neg ex (splitAtFirst (fun c => c = 'e' ∨ c = 'E') body).1

/-- Truncation toward zero of `num * 10 ^ scale` (`int()` applied to a
finite float). -/
def truncFloat (num : Int) (scale : Int) : Int :=
  if 0 ≤ scale then num * 10 ^ scale.toNat
  else
    let d := 10 ^ (-scale).toNat
    if num < 0 then -((num.natAbs / d : Nat) : Int) else ((num.natAbs / d : Nat) : Int)

/-- Python `int(float(value))` as used by the PERCENT-COMPLETE branch of
`from_ical`, wrapped in `try ... except ValueError`: a float `ValueError`
or a NaN `ValueError` is caught and yields the default `0`; an infinite
float makes `int()` raise an `OverflowError` which the `except ValueError`
clause does not catch (`none`). -/
def percentBranch (value : Str) : Option Int :=
  match pyFloatParse value with
  | none => some 0
  | some PyFloat.nan => some 0
  | some PyFloat.inf => none
  | some PyFloat.ninf => none
  | some (PyFloat.fin num sc) => some (truncFloat num sc)

/-! ## iCal escaping (`data.py`) -/

/-- `to_ical` DESCRIPTION escaping:
`notes.replace("\n", "\\n").replace(",", "\\,")`. -/
def escapeNotes (s : Str) : Str :=
  replC ',' ['\\', ','] (replC '\n' ['\\', 'n'] s)

/-- `from_ical` DESCRIPTION unescaping:
`value.replace("\\n", "\n").replace("\\,", ",")`. -/
def unescapeNotes (s : Str) : Str :=
  replCC '\\' ',' [','] (replCC '\\' 'n' ['\n'] s)

/-- `to_ical` X-property value escaping:
`value.replace("\n", "\\n").replace(",", "\\,").replace(";", "\;")`. -/
def escapeX (s : Str) : Str :=
  replC ';' ['\\', ';'] (replC ',' ['\\', ','] (replC '\n' ['\\', 'n'] s))

/-- `from_ical` X-property value unescaping:
`value.replace("\\n", "\n").replace("\\,", ",").replace("\;", ";")`. -/
def unescapeX (s : Str) : Str :=
  replCC '\\' ';' [';'] (replCC '\\' ',' [','] (replCC '\\' 'n' ['\n'] s))

/-! ## Data model (`data.py`) -/

/-- `TaskData` (dataclass in `data.py`).  `x_properties` models the
`XProperties` wrapper's insertion-ordered raw dictionary as an association
list with pairwise-distinct keys (a Python `dict` guarantees key uniqueness
and insertion order).  The `_api_reference` field is omitted: it is declared
with `compare=False`, so even Python's equality ignores it, and the codec
never reads it. -/
structure TaskData where
  attachments : List Str := []
  completed : Bool := false
  changed_at : Str := []
  created_at : Str := []
  deleted : Bool := false
  due_date : Str := []
  list_uid : Str := []
  notes : Str := []
  notified : Bool := false
  parent : Str := []
  percent_complete : Int := 0
  priority : Int := 0
  rrule : Str := []
  start_date : Str := []
  synced : Bool := false
  tags : List Str := []
  text : Str := []
  trash : Bool := false
  uid : Str := []
  x_properties : List (Str × Str) := []
deriving DecidableEq, Repr

/-- `TaskData.__post_init__`: fills `uid`, `created_at` and `changed_at`
when they are empty.  The non-deterministic environment (the current UTC
timestamp string and the fresh `uuid4` string) is passed explicitly. -/
def postInit (now freshUid : Str) (t : TaskData) : TaskData :=
  let t1 := if t.uid = [] then { t with uid := freshUid } else t
  let t2 := if t1.created_at = [] then { t1 with created_at := now } else t1
  if t2.changed_at = [] then { t2 with changed_at := now } else t2

/-! ## Encoder: `TaskData.to_ical` -/

/-- `TaskData.to_ical` (data.py lines 282-329), translated line by line.
The method builds the VTODO block by successive `+=` on a string; mid-way it
MUTATES `self.percent_complete` ("Ensure consistency") when the task is
completed with a stored percent below 100, so the model returns both the
post-call record and the produced text. -/
def toIcal (t0 : TaskData) : TaskData × Str :=
  let t := if t0.completed ∧ t0.percent_complete < 100 then
    { t0 with percent_complete := 100 } else t0
  let s :=
    "BEGIN:VTODO\n".data ++
    "UID:".data ++ t.uid ++ ['\n'] ++
    "SUMMARY:".data ++ t.text ++ ['\n'] ++
    (if t.notes ≠ [] then
      "DESCRIPTION:".data ++ escapeNotes t.notes ++ ['\n'] else []) ++
    "DTSTAMP:".data ++ t.created_at ++ ['\n'] ++
    "LAST-MODIFIED:".data ++ t.changed_at ++ ['\n'] ++
    "STATUS:".data ++
      (if t.completed then "COMPLETED".data else "NEEDS-ACTION".data) ++ ['\n'] ++
    "PERCENT-COMPLETE:".data ++ intToStr t.percent_complete ++ ['\n'] ++
    (if t.due_date ≠ [] then
      "DUE".data ++ (if ¬('T' ∈ t.due_date) then ";VALUE=DATE".data else []) ++
      [':'] ++ t.due_date ++ ['\n'] else []) ++
    (if t.start_date ≠ [] then
      "DTSTART".data ++
      (if ¬('T' ∈ t.start_date) then ";VALUE=DATE".data else []) ++
      [':'] ++ t.start_date ++ ['\n'] else []) ++
    (if t.priority ≠ 0 then
      "PRIORITY:".data ++ intToStr t.priority ++ ['\n'] else []) ++
    (if t.parent ≠ [] then "RELATED-TO:".data ++ t.parent ++ ['\n'] else []) ++
    (if t.tags ≠ [] then
      "CATEGORIES:".data ++ joinWith ',' t.tags ++ ['\n'] else []) ++
    (if t.rrule ≠ [] then "RRULE:".data ++ t.rrule ++ ['\n'] else []) ++
    (t.x_properties.map
      (fun kv => kv.1 ++ [':'] ++ escapeX kv.2 ++ ['\n'])).flatten ++
    "END:VTODO\n".data
  (t, s)

/-! ## Decoder: `TaskData.from_ical` -/

/-- RFC 5545 unfolding loop of `from_ical`: a line starting with a space or
tab is appended (minus its first character) to the previous line; such a
line with no previous line is dropped.  `acc` is kept reversed. -/
def unfoldAux (acc : List Str) : List Str → List Str
  | [] => acc.reverse
  | l :: ls =>
    if (l.head? = some ' ' ∨ l.head? = some '\t') then
      match acc with
      | [] => unfoldAux [] ls
      | h :: rest => unfoldAux ((h ++ l.drop 1) :: rest) ls
    else unfoldAux (l :: acc) ls

/-- Unfolded logical lines of a VTODO body. -/
def unfoldLines (ls : List Str) : List Str := unfoldAux [] ls

/-- Python `dict.__setitem__` on an insertion-ordered association list:
an existing key keeps its position and gets the new value, a new key is
appended. -/
def dictInsert (m : List (Str × Str)) (k v : Str) : List (Str × Str) :=
  if m.any (fun kv => kv.1 = k) then
    m.map (fun kv => if kv.1 = k then (k, v) else kv)
  else m ++ [(k, v)]

/-- One iteration of the property loop in `from_ical` (data.py lines
385-442): lines without a colon are skipped; otherwise the property name is
the part before the first colon and before any `;` parameter, uppercased,
and the value is everything after the first colon.  `none` models the
uncaught `OverflowError` of the PERCENT-COMPLETE branch. -/
def parseLine (task : TaskData) (line : Str) : Option TaskData :=
  if (':' ∈ line) then
    let prop_part := takeUntil ':' line
    let prop_name := toUpperStr (takeUntil ';' prop_part)
    let value := afterFirst ':' line
    if prop_name = "UID".data then some { task with uid := value }
    else if prop_name = "SUMMARY".data then some { task with text := value }
    else if prop_name = "DESCRIPTION".data then
      some { task with notes := unescapeNotes value }
    else if prop_name = "DTSTAMP".data then
      some { task with created_at := value }
    else if prop_name = "LAST-MODIFIED".data then
      some { task with changed_at := value }
    else if prop_name = "STATUS".data then
      some { task with completed := value = "COMPLETED".data }
    else if prop_name = "PERCENT-COMPLETE".data then
      (percentBranch value).map (fun n => { task with percent_complete := n })
    else if prop_name = "DUE".data then some { task with due_date := value }
    else if prop_name = "DTSTART".data then
      some { task with start_date := value }
    else if prop_name = "PRIORITY".data then
      some { task with priority := (pyIntParse value).getD 0 }
    else if prop_name = "RELATED-TO".data then
      some { task with parent := value }
    else if prop_name = "CATEGORIES".data then
      some { task with tags :=
        if value ≠ [] then
          ((splitComma value).map pyStrip).filter (fun tg => tg ≠ [])
        else [] }
    else if prop_name = "RRULE".data then some { task with rrule := value }
    else if ("X-".data).isPrefixOf prop_name then
      some { task with x_properties :=
        (dictInsert task.x_properties prop_part (unescapeX value)) }
    else some task
  else some task

/-- The property loop over all unfolded lines. -/
def parseAll : TaskData → List Str → Option TaskData
  | t, [] => some t
  | t, l :: ls =>
    match parseLine t l with
    | none => none
    | some t' => parseAll t' ls

/-- `TaskData.from_ical` (data.py lines 357-457).  `now` and `fresh1` feed
the `TaskData(list_uid=...)` construction (its `__post_init__` stamps the
current time and a fresh uuid4); `fresh2` is the uuid4 that would be drawn
by the final no-UID fallback.  `none` models the uncaught `OverflowError`
described at `percentBranch`. -/
def fromIcal (now fresh1 fresh2 : Str) (ical : Str) (list_uid : Str) :
    Option TaskData :=
  let task0 := postInit now fresh1 { list_uid := list_uid }
  let vtodo :=
    if containsSub ical "BEGIN:VTODO".data then
      match findSub ical "BEGIN:VTODO".data, findSub ical "END:VTODO".data with
      | some si, some ei => pySlice ical si ei
      | _, _ => ical
    else ical
  match parseAll task0 (unfoldLines (splitlines vtodo)) with
  | none => none
  | some t1 =>
    let t2 :=
      if t1.uid = [] then { t1 with uid := fresh2, synced := false }
      else { t1 with synced := true }
    some (if t2.changed_at = [] ∧ t2.created_at ≠ [] then
      { t2 with changed_at := t2.created_at } else t2)

/-! ## `XProperties` lookup and containment (`data.py` lines 101-155) -/

/-- `XProperties.__getitem__`: exact dictionary lookup first, then a
case-insensitive scan in insertion order; `none` models the final
`KeyError`. -/
def xGet (m : List (Str × Str)) (k : Str) : Option Str :=
  match m.find? (fun kv => kv.1 = k) with
  | some kv => some kv.2
  | none =>
    match m.find? (fun kv => toLowerStr kv.1 = toLowerStr k) with
    | some kv => some kv.2
    | none => none

/-- `XProperties.__contains__`: exact key, then case-insensitive key, then
the namespace+id strategy that splits both keys on the first two hyphens
and compares the `X-NAMESPACE` prefix and the remainder case-insensitively. -/
def xContains (m : List (Str × Str)) (k : Str) : Bool :=
  if m.any (fun kv => kv.1 = k) then true
  else if m.any (fun kv => toLowerStr kv.1 = toLowerStr k) then true
  else
    match splitHyphen2 k with
    | [p1, p2, uuidPart] =>
      m.any (fun kv =>
        match splitHyphen2 kv.1 with
        | [q1, q2, rawUuidPart] =>
          toLowerStr (p1 ++ '-' :: p2) = toLowerStr (q1 ++ '-' :: q2) ∧
          toLowerStr uuidPart = toLowerStr rawUuidPart
        | _ => false)
    | _ => false

/-! ## Reconciliation: `TasksAPI.update_task` (`caldav_tasks_api.py` 627-857)

The caldav library is the external collaborator; its behaviour at the
boundary used by `update_task` is captured by a stub.  Each tier of the
fallback ladder either succeeds or raises, which the stub records as a
boolean.  Exceptions raised and re-raised by `update_task` itself are
modelled by `UpdErr`. -/

/-- Exceptions that can escape `update_task`. -/
inductive UpdErr where
  /-- `PermissionError` in read-only mode. -/
  | permission
  /-- `ValueError`: missing uid / list uid, calendar not found, or the
  `NotFoundError` of `todo_by_uid` converted at line 845. -/
  | valueErr
  /-- an exception caught by the outer `except Exception` and re-raised
  (line 857). -/
  | reraised
deriving DecidableEq, Repr

/-- Stub of the caldav `Todo` object found by `todo_by_uid`, as exercised by
`update_task`.  `data` is the body its `.data` getter reports after the
update dance (empty list = falsy, no data). -/
structure ServerTodo where
  /-- the direct per-property tier (icalendar component mutation + `save()` +
  `complete()`/`uncomplete()`) raises. -/
  directRaises : Bool := false
  /-- fallback 1 (assigning `.data` and `save()`) raises. -/
  fullReplaceRaises : Bool := false
  /-- fallback 2 (`update_properties`) raises. -/
  updatePropsRaises : Bool := false
  /-- `hasattr(server_task_obj, "set_summary")`. -/
  hasSetSummary : Bool := false
  /-- fallback 3 (`set_summary`) raises. -/
  setSummaryRaises : Bool := false
  /-- the body reported by the `.data` getter after the update attempts. -/
  data : Str := []
deriving DecidableEq, Repr

/-- Stub of a caldav `Calendar`: its id and its todos keyed by UID
(`todo_by_uid`; a missing key models the `NotFoundError`). -/
structure CalCollection where
  id : Str := []
  todos : List (Str × ServerTodo) := []
deriving DecidableEq, Repr

/-- Environment of one `update_task` call.  `calendars` is
`self.raw_calendars` after the lazy `_fetch_raw_calendars` (the fetch only
populates the list and is outside the claims considered here). -/
structure UpdEnv where
  readOnly : Bool := false
  calendars : List CalCollection := []
deriving DecidableEq, Repr

/-- Outcome of the fallback ladder (lines 758-796); feeds only the logging,
never the returned record, because every tier's exception is caught
locally. -/
def ladderSuccess (todo : ServerTodo) : Bool :=
  if ¬todo.fullReplaceRaises then true
  else if ¬todo.updatePropsRaises then true
  else if todo.hasSetSummary ∧ ¬todo.setSummaryRaises then true
  else false

/-- `TasksAPI.update_task`.  `now` is the timestamp stamped at line 653;
`now2`, `fresh1`, `fresh2` feed the inner `TaskData.from_ical` call on the
re-parse path.  The record is mutated in place by the Python code, so the
model returns the final state of `task_data` together with the exception
that escapes, if any. -/
def updateTask (env : UpdEnv) (now now2 fresh1 fresh2 : Str) (t0 : TaskData) :
    TaskData × Option UpdErr :=
  if env.readOnly then (t0, some UpdErr.permission)
  else if t0.uid = [] then (t0, some UpdErr.valueErr)
  else if t0.list_uid = [] then (t0, some UpdErr.valueErr)
  else
    let t1 := { t0 with changed_at := now }
    let t1 := if t1.completed ∧ t1.percent_complete < 100 then
      { t1 with percent_complete := 100 } else t1
    match env.calendars.find? (fun c => c.id = t1.list_uid) with
    | none => ({ t1 with synced := false }, some UpdErr.valueErr)
    | some cal =>
      match (cal.todos.find? (fun p => p.1 = t1.uid)).map Prod.snd with
      | none => ({ t1 with synced := false }, some UpdErr.valueErr)
      | some todo =>
        -- desired_text := task_data.text; task_data.text := desired_text is
        -- a no-op on the record.
        -- Direct tier failure enters the fallback ladder, which starts by
        -- calling task_data.to_ical() (whose percent mutation is already a
        -- no-op here, but is applied faithfully); the ladder itself only
        -- touches server state and logging.
        let t2 := if todo.directRaises then (toIcal t1).1 else t1
        let _ : Bool := ladderSuccess todo
        if todo.data ≠ [] then
          match fromIcal now2 fresh1 fresh2 todo.data t2.list_uid with
          | none => ({ t2 with synced := false }, some UpdErr.reraised)
          | some r =>
            ({ t2 with
                uid := r.uid,
                notes := r.notes,
                created_at := r.created_at,
                changed_at := r.changed_at,
                completed := r.completed,
                percent_complete := r.percent_complete,
                due_date := r.due_date,
                start_date := r.start_date,
                priority := r.priority,
                parent := r.parent,
                tags := r.tags,
                rrule := r.rrule,
                x_properties := r.x_properties,
                synced := true }, none)
        else ({ t2 with synced := true }, none)

/-- Character-level view of `escapeNotes`. -/
def escN (c : Char) : Str :=
  if c = '\n' then ['\\', 'n'] else if c = ',' then ['\\', ','] else [c]

/-- Character-level view of `escapeX`. -/
def escX3 (c : Char) : Str :=
  if c = '\n' then ['\\', 'n']
  else if c = ',' then ['\\', ',']
  else if c = ';' then ['\\', ';']
  else [c]

/-- State of an `escapeNotes` block after undoing the `\n` escape. -/
def escN1 (c : Char) : Str :=
  if c = '\n' then ['\n'] else if c = ',' then ['\\', ','] else [c]

/-- State of an `escapeX` block after undoing the `\n` escape. -/
def escX1 (c : Char) : Str :=
  if c = '\n' then ['\n']
  else if c = ',' then ['\\', ',']
  else if c = ';' then ['\\', ';']
  else [c]

/-- State of an `escapeX` block after also undoing the `\,` escape. -/
def escX2 (c : Char) : Str :=
  if c = ';' then ['\\', ';'] else [c]

/-! ## Line-level view of the encoder -/

/-- The lines of the VTODO block produced by `to_ical` for the record state
after its percent mutation, without the final `END:VTODO` line. -/
def icalLines (t : TaskData) : List Str :=
  "BEGIN:VTODO".data ::
  ("UID:".data ++ t.uid) ::
  ("SUMMARY:".data ++ t.text) ::
  ((if t.notes ≠ [] then ["DESCRIPTION:".data ++ escapeNotes t.notes]
    else []) ++
    ("DTSTAMP:".data ++ t.created_at) ::
    ("LAST-MODIFIED:".data ++ t.changed_at) ::
    ("STATUS:".data ++
      (if t.completed then "COMPLETED".data else "NEEDS-ACTION".data)) ::
    ("PERCENT-COMPLETE:".data ++ intToStr t.percent_complete) ::
    ((if t.due_date ≠ [] then
        ["DUE".data ++
          (if ¬('T' ∈ t.due_date) then ";VALUE=DATE".data else []) ++
          ':' :: t.due_date]
      else []) ++
      ((if t.start_date ≠ [] then
          ["DTSTART".data ++
            (if ¬('T' ∈ t.start_date) then ";VALUE=DATE".data else []) ++
            ':' :: t.start_date]
        else []) ++
        ((if t.priority ≠ 0 then ["PRIORITY:".data ++ intToStr t.priority]
          else []) ++
          ((if t.parent ≠ [] then ["RELATED-TO:".data ++ t.parent]
            else []) ++
            ((if t.tags ≠ [] then
                ["CATEGORIES:".data ++ joinWith ',' t.tags]
              else []) ++
              ((if t.rrule ≠ [] then ["RRULE:".data ++ t.rrule] else []) ++
                t.x_properties.map
                  (fun kv => kv.1 ++ ':' :: escapeX kv.2))))))))

/-! ## Well-formedness for the round trip -/

/-- Lines free of every character `splitlines` splits on. -/
def noBr (s : Str) : Prop := ∀ c ∈ s, isLineBreak c = false

instance (s : Str) : Decidable (noBr s) := by
  unfold noBr
  infer_instance

/-- Texts whose only line-boundary character is `\n` (which the encoder
escapes); all other `splitlines` boundaries are absent. -/
def noHardBr (s : Str) : Prop :=
  ∀ c ∈ s, c ≠ '\n' → isLineBreak c = false

instance (s : Str) : Decidable (noHardBr s) := by
  unfold noHardBr
  infer_instance

/-- Keys acceptable as X-property keys: colon-free, single-line, and the
name part (before any `;` parameter) uppercases to something starting with
`X-`. -/
def xKeyOK (k : Str) : Prop :=
  ':' ∉ k ∧ noBr k ∧
  ("X-".data).isPrefixOf (toUpperStr (takeUntil ';' k))

/-- Well-formed records: the conditions under which `to_ical` produces a
text that `from_ical` maps back to the same encoding.  Single-line fields
contain none of the `splitlines` boundary characters; `notes` and
X-property values contain no backslash (the encoder does not escape
backslashes, so decoding is lossy on them) and no boundary character other
than `\n` (which the encoder escapes); tags are non-empty, comma-free and
already stripped; X-property keys are pairwise distinct and colon-free;
numeric fields are in their documented ranges; and the only `END:VTODO` in
the encoding is the final marker (the decoder truncates at the first
occurrence). -/
def wellFormed (t : TaskData) : Prop :=
  t.uid ≠ [] ∧ noBr t.uid ∧
  noBr t.text ∧
  '\\' ∉ t.notes ∧ noHardBr t.notes ∧
  t.created_at ≠ [] ∧ noBr t.created_at ∧
  t.changed_at ≠ [] ∧ noBr t.changed_at ∧
  0 ≤ t.percent_complete ∧ t.percent_complete ≤ 100 ∧
  noBr t.due_date ∧ noBr t.start_date ∧
  0 ≤ t.priority ∧ t.priority ≤ 9 ∧
  noBr t.parent ∧ noBr t.rrule ∧
  (∀ tg ∈ t.tags, tg ≠ [] ∧ noBr tg ∧ ',' ∉ tg ∧ pyStrip tg = tg) ∧
  (∀ kv ∈ t.x_properties, xKeyOK kv.1 ∧ '\\' ∉ kv.2 ∧ noHardBr kv.2) ∧
  (t.x_properties.map Prod.fst).Nodup ∧
  findSub (toIcal t).2 ("END:VTODO".data) =
    some ((toIcal t).2.length - 10)

instance (k : Str) : Decidable (xKeyOK k) := by
  unfold xKeyOK
  infer_instance

set_option synthInstance.maxHeartbeats 1000000 in
set_option synthInstance.maxSize 5000 in
instance (t : TaskData) : Decidable (wellFormed t) := by
  unfold wellFormed
  infer_instance

/-! ## No-line-break facts about the encoder lines -/

/-- A concrete rich record exercising every encoder branch: notes with a
newline and a comma, date-only due date, timed start date, priority, two
tags, a stored percent value and two X-properties. -/
def sampleTask : TaskData :=
  { list_uid := "list-1".data,
    uid := "abc-123".data,
    text := "Buy milk".data,
    notes := "line1\nwith,comma".data,
    created_at := "20250101T000000Z".data,
    changed_at := "20250102T000000Z".data,
    completed := false,
    percent_complete := 40,
    priority := 5,
    due_date := "20250101".data,
    start_date := "20250101T120000Z".data,
    parent := "parent-1".data,
    tags := ["home".data, "work".data],
    rrule := "FREQ=DAILY".data,
    x_properties := [("X-APPLE-SORT-ORDER".data, "123".data),
      ("X-TASKS-ORG-ORDER".data, "a,b\nc".data)] }

/-! ## C8: the encoder mutates its input record -/

/-- A completed record with stored percent 0. -/
def c8task : TaskData := { completed := true }

/-- A completed record whose stored percent exceeds 100. -/
def c3task : TaskData := { completed := true, percent_complete := 150 }

/-! ## C5: the spec's fixed encoding order (spec 4.1), stated in the
spec's own terms and compared with the encoder -/

/-- DESCRIPTION escaping as the spec words it: newline to backslash-n,
comma to backslash-comma. -/
def specEscapeDesc (s : Str) : Str :=
  replC ',' ['\\', ','] (replC '\n' ['\\', 'n'] s)

/-- X-property value escaping as the spec words it: newline, comma and
semicolon each get a backslash escape. -/
def specEscapeX (s : Str) : Str :=
  replC ';' ['\\', ';'] (replC ',' ['\\', ','] (replC '\n' ['\\', 'n'] s))

/-- The property lines of the spec's encode contract, in the spec's fixed
order with the spec's omission rules; `pcv` is the value carried by the
always-emitted `PERCENT-COMPLETE` line (the contract fixes that line's
presence and position, not its value, which the completion-consistency
sentence treats separately). -/
def specLines (t : TaskData) (pcv : Int) : List Str :=
  "BEGIN:VTODO".data ::
  ("UID:".data ++ t.uid) ::
  ("SUMMARY:".data ++ t.text) ::
  ((if t.notes ≠ [] then ["DESCRIPTION:".data ++ specEscapeDesc t.notes]
    else []) ++
    ("DTSTAMP:".data ++ t.created_at) ::
    ("LAST-MODIFIED:".data ++ t.changed_at) ::
    ("STATUS:".data ++
      (if t.completed then "COMPLETED".data else "NEEDS-ACTION".data)) ::
    ("PERCENT-COMPLETE:".data ++ intToStr pcv) ::
    ((if t.due_date ≠ [] then
        ["DUE".data ++
          (if ¬('T' ∈ t.due_date) then ";VALUE=DATE".data else []) ++
          ':' :: t.due_date]
      else []) ++
      ((if t.start_date ≠ [] then
          ["DTSTART".data ++
            (if ¬('T' ∈ t.start_date) then ";VALUE=DATE".data else []) ++
            ':' :: t.start_date]
        else []) ++
        ((if t.priority ≠ 0 then ["PRIORITY:".data ++ intToStr t.priority]
          else []) ++
          ((if t.parent ≠ [] then ["RELATED-TO:".data ++ t.parent]
            else []) ++
            ((if t.tags ≠ [] then
                ["CATEGORIES:".data ++ joinWith ',' t.tags]
              else []) ++
              ((if t.rrule ≠ [] then ["RRULE:".data ++ t.rrule] else []) ++
                t.x_properties.map
                  (fun kv => kv.1 ++ ':' :: specEscapeX kv.2))))))))

/-- The spec's encode contract as a whole block: the ordered lines, each
closed by a newline, followed by the `END:VTODO` line. -/
def specEncode (t : TaskData) (pcv : Int) : Str :=
  joinNl (specLines t pcv ++ ["END:VTODO".data])

/-! ## C4: all update tiers raising is a soft failure -/

/-- A server item whose direct tier and every fallback tier raise, and
whose post-update body read is empty. -/
def c4todo : ServerTodo :=
  { directRaises := true, fullReplaceRaises := true,
    updatePropsRaises := true, hasSetSummary := true,
    setSummaryRaises := true, data := [] }

/-- One calendar holding the all-raising item under uid `u1`. -/
def c4env : UpdEnv :=
  { readOnly := false,
    calendars := [{ id := "L1".data, todos := [("u1".data, c4todo)] }] }

/-- The updated record: found in the calendar, previously not synced. -/
def c4task : TaskData :=
  { uid := "u1".data, list_uid := "L1".data, synced := false }

/-- The calendar is present but holds no item with the record's uid. -/
def c10env : UpdEnv := { calendars := [{ id := "L1".data, todos := [] }] }

/-- A completed record with percent below 100, previously synced. -/
def c10task : TaskData :=
  { uid := "u9".data, list_uid := "L1".data, completed := true,
    percent_complete := 10, synced := true }

/-! ## Theorems -/

/-! ## Lemmas about the string primitives -/

theorem takeUntil_append (c : Char) (nm v : Str) (h : c ∉ nm) :
    takeUntil c (nm ++ c :: v) = nm := by
  unfold takeUntil
  rw [List.takeWhile_append_of_pos]
  · simp [List.takeWhile_cons]
  · intro a ha
    simp only [ne_eq, decide_eq_true_eq]
    intro he
    exact h (he ▸ ha)

theorem afterFirst_append (c : Char) (nm v : Str) (h : c ∉ nm) :
    afterFirst c (nm ++ c :: v) = v := by
  unfold afterFirst
  rw [List.dropWhile_append_of_pos]
  · simp [List.dropWhile_cons]
  · intro a ha
    simp only [ne_eq, decide_eq_true_eq]
    intro he
    exact h (he ▸ ha)

theorem splitlines_cons (c : Char) (t : Str)
    (h1 : isLineBreak c = false) :
    splitlines (c :: t) =
      match splitlines t with
      | [] => [[c]]
      | h :: r => (c :: h) :: r := by
  have h2 : c ≠ '\r' := by
    intro he
    subst he
    exact absurd h1 (by decide)
  rw [splitlines.eq_def]
  split
  · rename_i heq; cases heq
  · rename_i heq; injection heq with heq1 _; exact absurd heq1 h2
  · rename_i heq
    injection heq with heq1 heq2
    subst heq1
    subst heq2
    rw [if_neg (by rw [h1]; simp)]

theorem splitlines_line (l rest : Str) (hn : noBr l) :
    splitlines (l ++ '\n' :: rest) = l :: splitlines rest := by
  induction l with
  | nil => rfl
  | cons c l ih =>
    have hc1 : isLineBreak c = false := hn c (List.mem_cons_self c l)
    have ih' := ih (fun a ha => hn a (List.mem_cons_of_mem c ha))
    simp only [List.cons_append]
    rw [splitlines_cons c _ hc1, ih']

theorem splitlines_joinNl (ls : List Str) (h : ∀ l ∈ ls, noBr l) :
    splitlines (joinNl ls) = ls := by
  induction ls with
  | nil => rfl
  | cons l ls ih =>
    have hl := h l (List.mem_cons_self l ls)
    have step : joinNl (l :: ls) = l ++ '\n' :: joinNl ls := by
      simp [joinNl]
    rw [step, splitlines_line l _ hl,
      ih (fun x hx => h x (List.mem_cons_of_mem l hx))]

theorem unfoldAux_eq (acc : List Str) (ls : List Str)
    (h : ∀ l ∈ ls, ¬(l.head? = some ' ' ∨ l.head? = some '\t')) :
    unfoldAux acc ls = acc.reverse ++ ls := by
  induction ls generalizing acc with
  | nil => simp [unfoldAux]
  | cons l ls ih =>
    have hl := h l (List.mem_cons_self l ls)
    rw [unfoldAux.eq_def]
    simp only
    rw [if_neg hl, ih (l :: acc)
      (fun x hx => h x (List.mem_cons_of_mem l hx))]
    simp

theorem unfoldLines_eq (ls : List Str)
    (h : ∀ l ∈ ls, ¬(l.head? = some ' ' ∨ l.head? = some '\t')) :
    unfoldLines ls = ls := by
  rw [unfoldLines, unfoldAux_eq [] ls h]
  rfl

theorem findSub_of_isPrefixOf (s pat : Str) (h : pat.isPrefixOf s) :
    findSub s pat = some 0 := by
  cases s with
  | nil => simp [findSub, h]
  | cons c t => simp [findSub, h]

theorem findSub_exists (s pat : Str) (i : Nat) (h : findSub s pat = some i) :
    ∃ a b, s = a ++ pat ++ b ∧ a.length = i := by
  induction s generalizing i with
  | nil =>
    rw [findSub] at h
    split at h
    · rename_i hp
      have hp2 := List.isPrefixOf_iff_prefix.mp hp
      have hpe : pat = [] := List.prefix_nil.mp hp2
      refine ⟨[], [], by simp [hpe], by cases h; rfl⟩
    · cases h
  | cons c t ih =>
    rw [findSub] at h
    split at h
    · rename_i hp
      obtain ⟨b, hb⟩ := List.isPrefixOf_iff_prefix.mp hp
      refine ⟨[], b, by simp [hb.symm], by cases h; rfl⟩
    · rename_i hp
      cases hi : findSub t pat with
      | none => rw [hi] at h; cases h
      | some j =>
        rw [hi] at h
        have hji : j + 1 = i := by simpa using h
        obtain ⟨a, b, hab, hlen⟩ := ih j hi
        refine ⟨c :: a, b, by simp [hab], ?_⟩
        simp only [List.length_cons]
        omega

theorem containsSub_of_append (a pat b : Str) :
    containsSub (a ++ pat ++ b) pat = true := by
  induction a with
  | nil =>
    have hp : pat.isPrefixOf (pat ++ b) :=
      List.isPrefixOf_iff_prefix.mpr ⟨b, rfl⟩
    simp [containsSub, findSub_of_isPrefixOf _ _ hp]
  | cons c t ih =>
    simp only [containsSub, List.cons_append, findSub]
    split
    · simp
    · simpa [containsSub, Option.isSome_map] using ih

theorem containsSub_iff (s pat : Str) :
    containsSub s pat = true ↔ ∃ a b, s = a ++ pat ++ b := by
  constructor
  · intro h
    rw [containsSub, Option.isSome_iff_exists] at h
    obtain ⟨i, hi⟩ := h
    obtain ⟨a, b, hab, _⟩ := findSub_exists s pat i hi
    exact ⟨a, b, hab⟩
  · rintro ⟨a, b, rfl⟩
    exact containsSub_of_append a pat b

/-! ## Escaping lemmas -/

theorem replC_append (p : Char) (r xs ys : Str) :
    replC p r (xs ++ ys) = replC p r xs ++ replC p r ys := by
  induction xs with
  | nil => rfl
  | cons c t ih =>
    simp only [List.cons_append, replC, ih]
    split <;> simp [ih]

theorem mem_replC (p : Char) (r s : Str) (a : Char) (ha : a ∈ replC p r s) :
    a ∈ r ∨ (a ∈ s ∧ a ≠ p) := by
  induction s with
  | nil => cases ha
  | cons c t ih =>
    rw [replC] at ha
    split at ha
    · rename_i hc
      rcases List.mem_append.mp ha with h1 | h2
      · exact Or.inl h1
      · rcases ih h2 with h3 | h3
        · exact Or.inl h3
        · exact Or.inr ⟨List.mem_cons_of_mem c h3.1, h3.2⟩
    · rename_i hc
      rcases List.mem_cons.mp ha with h1 | h2
      · exact Or.inr ⟨h1 ▸ List.mem_cons_self c t, h1 ▸ hc⟩
      · rcases ih h2 with h3 | h3
        · exact Or.inl h3
        · exact Or.inr ⟨List.mem_cons_of_mem c h3.1, h3.2⟩

theorem escapeNotes_eq (s : Str) : escapeNotes s = (s.map escN).flatten := by
  induction s with
  | nil => rfl
  | cons c t ih =>
    unfold escapeNotes at ih ⊢
    rw [show replC '\n' ['\\', 'n'] (c :: t) =
        (if c = '\n' then ['\\', 'n'] else [c]) ++ replC '\n' ['\\', 'n'] t by
      rw [replC]; split <;> simp]
    rw [replC_append, ih]
    simp only [List.map_cons, List.flatten_cons, escN]
    by_cases h1 : c = '\n'
    · simp [h1, replC]
    · by_cases h2 : c = ','
      · simp [h1, h2, replC]
      · simp [h1, h2, replC]

theorem escapeX_eq (s : Str) : escapeX s = (s.map escX3).flatten := by
  induction s with
  | nil => rfl
  | cons c t ih =>
    unfold escapeX at ih ⊢
    rw [show replC '\n' ['\\', 'n'] (c :: t) =
        (if c = '\n' then ['\\', 'n'] else [c]) ++ replC '\n' ['\\', 'n'] t by
      rw [replC]; split <;> simp]
    rw [replC_append, replC_append, ih]
    simp only [List.map_cons, List.flatten_cons, escX3]
    by_cases h1 : c = '\n'
    · simp [h1, replC]
    · by_cases h2 : c = ','
      · simp [h1, h2, replC]
      · by_cases h3 : c = ';'
        · simp [h1, h2, h3, replC]
        · simp [h1, h2, h3, replC]

theorem replCC_cons_ne (p q : Char) (r : Str) (c : Char) (t : Str)
    (h : c ≠ p) : replCC p q r (c :: t) = c :: replCC p q r t := by
  cases t with
  | nil => rfl
  | cons d t2 =>
    rw [replCC]
    rw [if_neg]
    intro hc
    exact h hc.1

theorem replCC_cons2_ne (p q : Char) (r : Str) (d : Char) (t : Str)
    (h : d ≠ q) : replCC p q r (p :: d :: t) = p :: replCC p q r (d :: t) := by
  rw [replCC, if_neg]
  intro hc
  exact h hc.2

theorem replCC_cons2_eq (p q : Char) (r : Str) (t : Str) :
    replCC p q r (p :: q :: t) = r ++ replCC p q r t := by
  rw [replCC, if_pos ⟨rfl, rfl⟩]

theorem replCC_n_escN (s : Str) (h : '\\' ∉ s) :
    replCC '\\' 'n' ['\n'] ((s.map escN).flatten) = (s.map escN1).flatten := by
  induction s with
  | nil => rfl
  | cons c t ih =>
    have hc : c ≠ '\\' := fun he => h (he ▸ List.mem_cons_self c t)
    have ih' := ih (fun hm => h (List.mem_cons_of_mem c hm))
    simp only [List.map_cons, List.flatten_cons]
    by_cases h1 : c = '\n'
    · subst h1
      rw [show escN '\n' = ['\\', 'n'] from rfl,
        show escN1 '\n' = ['\n'] from rfl]
      simp only [List.cons_append, List.nil_append, List.singleton_append]
      rw [replCC_cons2_eq, ih']
      rfl
    · by_cases h2 : c = ','
      · subst h2
        rw [show escN ',' = ['\\', ','] from rfl,
          show escN1 ',' = ['\\', ','] from rfl]
        simp only [List.cons_append, List.nil_append]
        rw [replCC_cons2_ne '\\' 'n' ['\n'] ',' _ (by decide),
          replCC_cons_ne '\\' 'n' ['\n'] ',' _ (by decide), ih']
      · rw [show escN c = [c] from by rw [escN, if_neg h1, if_neg h2],
          show escN1 c = [c] from by rw [escN1, if_neg h1, if_neg h2]]
        simp only [List.singleton_append]
        rw [replCC_cons_ne '\\' 'n' ['\n'] c _ hc, ih']

theorem replCC_c_escN1 (s : Str) (h : '\\' ∉ s) :
    replCC '\\' ',' [','] ((s.map escN1).flatten) = s := by
  induction s with
  | nil => rfl
  | cons c t ih =>
    have hc : c ≠ '\\' := fun he => h (he ▸ List.mem_cons_self c t)
    have ih' := ih (fun hm => h (List.mem_cons_of_mem c hm))
    simp only [List.map_cons, List.flatten_cons]
    by_cases h1 : c = '\n'
    · subst h1
      rw [show escN1 '\n' = ['\n'] from rfl]
      simp only [List.singleton_append]
      rw [replCC_cons_ne '\\' ',' [','] '\n' _ (by decide), ih']
    · by_cases h2 : c = ','
      · subst h2
        rw [show escN1 ',' = ['\\', ','] from rfl]
        simp only [List.cons_append, List.nil_append]
        rw [replCC_cons2_eq, ih']
        rfl
      · rw [show escN1 c = [c] from by rw [escN1, if_neg h1, if_neg h2]]
        simp only [List.singleton_append]
        rw [replCC_cons_ne '\\' ',' [','] c _ hc, ih']

theorem unescape_escapeNotes (s : Str) (h : '\\' ∉ s) :
    unescapeNotes (escapeNotes s) = s := by
  rw [unescapeNotes, escapeNotes_eq, replCC_n_escN s h, replCC_c_escN1 s h]

theorem replCC_n_escX (s : Str) (h : '\\' ∉ s) :
    replCC '\\' 'n' ['\n'] ((s.map escX3).flatten) = (s.map escX1).flatten := by
  induction s with
  | nil => rfl
  | cons c t ih =>
    have hc : c ≠ '\\' := fun he => h (he ▸ List.mem_cons_self c t)
    have ih' := ih (fun hm => h (List.mem_cons_of_mem c hm))
    simp only [List.map_cons, List.flatten_cons]
    by_cases h1 : c = '\n'
    · subst h1
      rw [show escX3 '\n' = ['\\', 'n'] from rfl,
        show escX1 '\n' = ['\n'] from rfl]
      simp only [List.cons_append, List.nil_append, List.singleton_append]
      rw [replCC_cons2_eq, ih']
      rfl
    · by_cases h2 : c = ','
      · subst h2
        rw [show escX3 ',' = ['\\', ','] from rfl,
          show escX1 ',' = ['\\', ','] from rfl]
        simp only [List.cons_append, List.nil_append]
        rw [replCC_cons2_ne '\\' 'n' ['\n'] ',' _ (by decide),
          replCC_cons_ne '\\' 'n' ['\n'] ',' _ (by decide), ih']
      · by_cases h3 : c = ';'
        · subst h3
          rw [show escX3 ';' = ['\\', ';'] from rfl,
            show escX1 ';' = ['\\', ';'] from rfl]
          simp only [List.cons_append, List.nil_append]
          rw [replCC_cons2_ne '\\' 'n' ['\n'] ';' _ (by decide),
            replCC_cons_ne '\\' 'n' ['\n'] ';' _ (by decide), ih']
        · rw [show escX3 c = [c] from by
              rw [escX3, if_neg h1, if_neg h2, if_neg h3],
            show escX1 c = [c] from by
              rw [escX1, if_neg h1, if_neg h2, if_neg h3]]
          simp only [List.singleton_append]
          rw [replCC_cons_ne '\\' 'n' ['\n'] c _ hc, ih']

theorem replCC_c_escX1 (s : Str) (h : '\\' ∉ s) :
    replCC '\\' ',' [','] ((s.map escX1).flatten) = (s.map escX2).flatten := by
  induction s with
  | nil => rfl
  | cons c t ih =>
    have hc : c ≠ '\\' := fun he => h (he ▸ List.mem_cons_self c t)
    have ih' := ih (fun hm => h (List.mem_cons_of_mem c hm))
    simp only [List.map_cons, List.flatten_cons]
    by_cases h1 : c = '\n'
    · subst h1
      rw [show escX1 '\n' = ['\n'] from rfl,
        show escX2 '\n' = ['\n'] from rfl]
      simp only [List.singleton_append]
      rw [replCC_cons_ne '\\' ',' [','] '\n' _ (by decide), ih']
    · by_cases h2 : c = ','
      · subst h2
        rw [show escX1 ',' = ['\\', ','] from rfl,
          show escX2 ',' = [','] from rfl]
        simp only [List.cons_append, List.nil_append, List.singleton_append]
        rw [replCC_cons2_eq, ih']
        rfl
      · by_cases h3 : c = ';'
        · subst h3
          rw [show escX1 ';' = ['\\', ';'] from rfl,
            show escX2 ';' = ['\\', ';'] from rfl]
          simp only [List.cons_append, List.nil_append]
          rw [replCC_cons2_ne '\\' ',' [','] ';' _ (by decide),
            replCC_cons_ne '\\' ',' [','] ';' _ (by decide), ih']
        · rw [show escX1 c = [c] from by
              rw [escX1, if_neg h1, if_neg h2, if_neg h3],
            show escX2 c = [c] from by rw [escX2, if_neg h3]]
          simp only [List.singleton_append]
          rw [replCC_cons_ne '\\' ',' [','] c _ hc, ih']

theorem replCC_s_escX2 (s : Str) (h : '\\' ∉ s) :
    replCC '\\' ';' [';'] ((s.map escX2).flatten) = s := by
  induction s with
  | nil => rfl
  | cons c t ih =>
    have hc : c ≠ '\\' := fun he => h (he ▸ List.mem_cons_self c t)
    have ih' := ih (fun hm => h (List.mem_cons_of_mem c hm))
    simp only [List.map_cons, List.flatten_cons]
    by_cases h3 : c = ';'
    · subst h3
      rw [show escX2 ';' = ['\\', ';'] from rfl]
      simp only [List.cons_append, List.nil_append]
      rw [replCC_cons2_eq, ih']
      rfl
    · rw [show escX2 c = [c] from by rw [escX2, if_neg h3]]
      simp only [List.singleton_append]
      rw [replCC_cons_ne '\\' ';' [';'] c _ hc, ih']

theorem unescapeX_escapeX (s : Str) (h : '\\' ∉ s) :
    unescapeX (escapeX s) = s := by
  rw [unescapeX, escapeX_eq, replCC_n_escX s h, replCC_c_escX1 s h,
    replCC_s_escX2 s h]

/-! ## Decimal printing / parsing lemmas -/

theorem digitChar_toNat (d : Nat) (h : d < 10) : (digitChar d).toNat = 48 + d := by
  interval_cases d <;> decide

theorem digitVal_digitChar (d : Nat) (h : d < 10) :
    digitVal (digitChar d) = some d := by
  interval_cases d <;> decide

theorem natToStrAux_acc (fuel n : Nat) (acc : Str) :
    natToStrAux fuel n acc = natToStrAux fuel n [] ++ acc := by
  induction fuel generalizing n acc with
  | zero => rfl
  | succ f ih =>
    rw [natToStrAux, natToStrAux]
    by_cases h : n < 10
    · simp [h]
    · rw [if_neg h, if_neg h, ih (n / 10) (digitChar (n % 10) :: acc),
        ih (n / 10) [digitChar (n % 10)]]
      simp

theorem natToStrAux_fuel (f1 f2 n : Nat) (h1 : n < f1) (h2 : n < f2) :
    natToStrAux f1 n [] = natToStrAux f2 n [] := by
  induction n using Nat.strong_induction_on generalizing f1 f2 with
  | _ n ih =>
    cases f1 with
    | zero => omega
    | succ g1 =>
      cases f2 with
      | zero => omega
      | succ g2 =>
        rw [natToStrAux, natToStrAux]
        by_cases h : n < 10
        · simp [h]
        · rw [if_neg h, if_neg h, natToStrAux_acc g1, natToStrAux_acc g2]
          have hd : n / 10 < n := Nat.div_lt_self (by omega) (by omega)
          rw [ih (n / 10) hd g1 g2 (by omega) (by omega)]

theorem natToStr_eq (n : Nat) :
    natToStr n =
      if n < 10 then [digitChar n]
      else natToStr (n / 10) ++ [digitChar (n % 10)] := by
  rw [natToStr, natToStrAux]
  by_cases h : n < 10
  · simp [h]
  · rw [if_neg h, if_neg h, natToStrAux_acc, natToStr,
      natToStrAux_fuel n (n / 10 + 1) (n / 10)
        (Nat.div_lt_self (by omega) (by omega)) (by omega)]

theorem natToStr_chars (n : Nat) :
    ∀ c ∈ natToStr n, 48 ≤ c.toNat ∧ c.toNat ≤ 57 := by
  induction n using Nat.strong_induction_on with
  | _ n ih =>
    intro c hc
    rw [natToStr_eq] at hc
    by_cases h : n < 10
    · rw [if_pos h] at hc
      rcases List.mem_singleton.mp hc with rfl
      rw [digitChar_toNat n h]
      omega
    · rw [if_neg h] at hc
      rcases List.mem_append.mp hc with h1 | h1
      · exact ih (n / 10) (Nat.div_lt_self (by omega) (by omega)) c h1
      · rcases List.mem_singleton.mp h1 with rfl
        rw [digitChar_toNat (n % 10) (Nat.mod_lt n (by omega))]
        omega

theorem natToStr_ne_nil (n : Nat) : natToStr n ≠ [] := by
  rw [natToStr_eq]
  by_cases h : n < 10 <;> simp [h]

theorem digitsVal_natToStr (n : Nat) : digitsVal (natToStr n) = n := by
  induction n using Nat.strong_induction_on with
  | _ n ih =>
    rw [natToStr_eq]
    by_cases h : n < 10
    · rw [if_pos h]
      simp [digitsVal, digitVal_digitChar n h]
    · rw [if_neg h]
      rw [digitsVal, List.foldl_append]
      have hv := ih (n / 10) (Nat.div_lt_self (by omega) (by omega))
      rw [digitsVal] at hv
      rw [hv]
      simp only [List.foldl_cons, List.foldl_nil,
        digitVal_digitChar (n % 10) (Nat.mod_lt n (by omega)),
        Option.getD_some]
      omega

theorem digitsU_cons_cons (c d : Char) (t : Str) (hd : d ≠ '_') :
    digitsU (c :: d :: t) =
      if (digitVal c).isSome then (digitsU (d :: t)).map (fun r => c :: r)
      else none := by
  rw [digitsU.eq_def]
  split
  · rename_i heq; cases heq
  · rename_i heq; cases heq
  · rename_i heq
    injection heq with heq1 heq2
    injection heq2 with heq2 _
    exact absurd heq2 hd

  · rename_i heq
    injection heq with heq1 heq2
    injection heq2 with heq2 heq3
    subst heq1; subst heq2; subst heq3
    rfl

theorem digitsU_all (s : Str) (h1 : s ≠ [])
    (h2 : ∀ c ∈ s, (digitVal c).isSome) : digitsU s = some s := by
  induction s with
  | nil => exact absurd rfl h1
  | cons c t ih =>
    cases t with
    | nil => simp [digitsU, h2 c (List.mem_cons_self c [])]
    | cons d t2 =>
      have hdig := h2 d (List.mem_cons_of_mem c (List.mem_cons_self d t2))
      have hd : d ≠ '_' := by
        intro he
        rw [he] at hdig
        exact absurd hdig (by decide)
      rw [digitsU_cons_cons c d t2 hd,
        if_pos (h2 c (List.mem_cons_self c (d :: t2))),
        ih (by simp) (fun x hx => h2 x (List.mem_cons_of_mem c hx))]
      rfl

theorem dropWhile_false (p : Char → Bool) (s : Str)
    (h : ∀ c ∈ s, p c = false) : s.dropWhile p = s := by
  cases s with
  | nil => rfl
  | cons c t =>
    rw [List.dropWhile_cons, h c (List.mem_cons_self c t)]
    simp

theorem pyStrip_eq_self (s : Str) (h : ∀ c ∈ s, isPySpace c = false) :
    pyStrip s = s := by
  rw [pyStrip, dropWhile_false _ _ h,
    dropWhile_false _ _ (fun c hc => h c (List.mem_reverse.mp hc)),
    List.reverse_reverse]

theorem isPySpace_false_of_digit (c : Char) (h48 : 48 ≤ c.toNat)
    (h57 : c.toNat ≤ 57) : isPySpace c = false := by
  have e1 : ¬(c = ' ') := fun he => by subst he; exact absurd h48 (by decide)
  have e2 : ¬(c = '\t') := fun he => by subst he; exact absurd h48 (by decide)
  have e3 : ¬(c = '\n') := fun he => by subst he; exact absurd h48 (by decide)
  have e4 : ¬(c = '\r') := fun he => by subst he; exact absurd h48 (by decide)
  have e5 : ¬(c = '\x0b') := fun he => by subst he; exact absurd h48 (by decide)
  have e6 : ¬(c = '\x0c') := fun he => by subst he; exact absurd h48 (by decide)
  simp [isPySpace, e1, e2, e3, e4, e5, e6]

theorem pyStrip_natToStr (n : Nat) : pyStrip (natToStr n) = natToStr n :=
  pyStrip_eq_self _ (fun c hc =>
    isPySpace_false_of_digit c (natToStr_chars n c hc).1
      (natToStr_chars n c hc).2)

theorem pyIntParse_natToStr (n : Nat) : pyIntParse (natToStr n) = some (n : Int) := by
  rw [pyIntParse]
  rw [pyStrip_natToStr]
  have hne := natToStr_ne_nil n
  have hch := natToStr_chars n
  split
  · rename_i t heq
    have : '+' ∈ natToStr n := by rw [heq]; exact List.mem_cons_self _ _
    have := hch '+' this
    exact absurd this.1 (by decide)
  · rename_i t heq
    have : '-' ∈ natToStr n := by rw [heq]; exact List.mem_cons_self _ _
    have := hch '-' this
    exact absurd this.1 (by decide)
  · rw [digitsU_all (natToStr n) hne (fun c hc => by
      rw [digitVal, if_pos]
      · rfl
      · exact ⟨(hch c hc).1, (hch c hc).2⟩)]
    show some ((digitsVal (natToStr n) : Nat) : Int) = some (n : Int)
    rw [digitsVal_natToStr]

theorem toLower_digit (c : Char) (h : c.toNat ≤ 57) : c.toLower = c := by
  rw [Char.toLower]
  show (if c.toNat ≥ 65 ∧ c.toNat ≤ 90 then Char.ofNat (c.toNat + 32) else c) = c
  rw [if_neg (by omega)]

theorem splitAtFirst_none (p : Char → Bool) (s : Str)
    (h : ∀ c ∈ s, p c = false) : splitAtFirst p s = (s, none) := by
  induction s with
  | nil => rfl
  | cons c t ih =>
    rw [splitAtFirst, if_neg (by rw [h c (List.mem_cons_self c t)]; simp),
      ih (fun x hx => h x (List.mem_cons_of_mem c hx))]

theorem pySign_digit (c : Char) (t : Str) (h1 : c ≠ '+') (h2 : c ≠ '-') :
    pySign (c :: t) = (false, c :: t) := by
  rw [pySign.eq_def]
  split
  · rename_i heq
    injection heq with ha _
    exact absurd ha h1
  · rename_i heq
    injection heq with ha _
    exact absurd ha h2
  · rfl

theorem toLowerStr_digits (s : Str)
    (hch : ∀ c ∈ s, 48 ≤ c.toNat ∧ c.toNat ≤ 57) : toLowerStr s = s := by
  rw [toLowerStr]
  induction s with
  | nil => rfl
  | cons c t ih =>
    rw [List.map_cons, toLower_digit c (hch c (List.mem_cons_self c t)).2,
      ih (fun x hx => hch x (List.mem_cons_of_mem c hx))]

theorem pyFloatParse_digits (s : Str) (hne : s ≠ [])
    (hch : ∀ c ∈ s, 48 ≤ c.toNat ∧ c.toNat ≤ 57)
    (hlt : digitsVal s < 2 ^ 1024) :
    pyFloatParse s = some (PyFloat.fin (digitsVal s) 0) := by
  have hstrip : pyStrip s = s :=
    pyStrip_eq_self _ (fun c hc =>
      isPySpace_false_of_digit c (hch c hc).1 (hch c hc).2)
  obtain ⟨c, t, rfl⟩ : ∃ c t, s = c :: t := by
    cases s with
    | nil => exact absurd rfl hne
    | cons c t => exact ⟨c, t, rfl⟩
  have hc := hch c (List.mem_cons_self c t)
  have hsgn : pySign (c :: t) = (false, c :: t) :=
    pySign_digit c t (fun he => by subst he; exact absurd hc.1 (by decide))
      (fun he => by subst he; exact absurd hc.1 (by decide))
  have hlow := toLowerStr_digits (c :: t) hch
  have hne_i : ∀ (r : Str), c :: t = 'i' :: r → False := fun r he => by
    have hcl : c = 'i' := (List.cons.injEq c t 'i' r).mp he |>.1
    subst hcl
    exact absurd hc (by decide)
  have hne_n : ∀ (r : Str), c :: t = 'n' :: r → False := fun r he => by
    have hcl : c = 'n' := (List.cons.injEq c t 'n' r).mp he |>.1
    subst hcl
    exact absurd hc (by decide)
  have hsplitE : splitAtFirst (fun a => a = 'e' ∨ a = 'E') (c :: t) =
      (c :: t, none) := by
    apply splitAtFirst_none
    intro x hx
    have hx2 := hch x hx
    have e1 : ¬(x = 'e') := fun he => by
      subst he
      exact absurd hx2 (by decide)
    have e2 : ¬(x = 'E') := fun he => by
      subst he
      exact absurd hx2 (by decide)
    simp [e1, e2]
  have hsplitD : splitAtFirst (fun a => a = '.') (c :: t) =
      (c :: t, none) := by
    apply splitAtFirst_none
    intro x hx
    have hx2 := hch x hx
    have e1 : ¬(x = '.') := fun he => by
      subst he
      exact absurd hx2 (by decide)
    simp [e1]
  rw [pyFloatParse]
  simp only [hstrip, hsgn, hlow, hsplitE]
  rw [if_neg, if_neg]
  · rw [show pyExpVal none = some 0 from rfl]
    simp only [pyMantVal, hsplitD, Option.getD_none]
    have hdu : digitsU (c :: t) = some (c :: t) :=
      digitsU_all (c :: t) (by simp) (fun x hx => by
        rw [digitVal, if_pos ⟨(hch x hx).1, (hch x hx).2⟩]
        rfl)
    have hbig : floatTooBig ((digitsVal (c :: t) : Nat) : Int) 0 = false := by
      simp only [floatTooBig]
      rw [if_pos (by omega)]
      have hlt' : ¬(2 ^ 1024 ≤ digitsVal (c :: t)) := by omega
      simp only [Int.toNat_zero, pow_zero, mul_one, ge_iff_le,
        Int.natAbs_ofNat]
      exact decide_eq_false hlt'
    simp [hdu, hbig]
  · exact fun he => hne_n _ he
  · rintro (he | he)
    · exact hne_i _ he
    · exact hne_i _ he

theorem percentBranch_digits (s : Str) (hne : s ≠ [])
    (hch : ∀ c ∈ s, 48 ≤ c.toNat ∧ c.toNat ≤ 57)
    (hlt : digitsVal s < 2 ^ 1024) :
    percentBranch s = some (digitsVal s) := by
  rw [percentBranch, pyFloatParse_digits s hne hch hlt]
  show some (truncFloat (digitsVal s) 0) = some ((digitsVal s : Nat) : Int)
  rw [truncFloat, if_pos (by omega)]
  simp

theorem percentBranch_natToStr (n : Nat) (hn : n < 2 ^ 1024) :
    percentBranch (natToStr n) = some ((n : Nat) : Int) := by
  have h := percentBranch_digits (natToStr n) (natToStr_ne_nil n)
    (natToStr_chars n) (by rw [digitsVal_natToStr]; exact hn)
  rw [digitsVal_natToStr] at h
  exact h

theorem intToStr_ofNat (n : Nat) : intToStr (n : Int) = natToStr n := by
  rw [intToStr, if_neg (by omega)]
  simp

theorem pyIntParse_intToStr_ofNat (n : Nat) :
    pyIntParse (intToStr (n : Int)) = some (n : Int) := by
  rw [intToStr_ofNat, pyIntParse_natToStr]

/-! ## Evaluating `parseLine` on well-formed property lines -/

theorem parseLine_uid (task : TaskData) (v : Str) :
    parseLine task ("UID:".data ++ v) = some { task with uid := v } := by
  rw [show ("UID:".data ++ v) = "UID".data ++ ':' :: v from rfl]
  simp only [parseLine]
  rw [if_pos (by simp), takeUntil_append ':' _ _ (by decide),
    afterFirst_append ':' _ _ (by decide),
    show toUpperStr (takeUntil ';' "UID".data) = "UID".data from rfl]
  simp

theorem parseLine_summary (task : TaskData) (v : Str) :
    parseLine task ("SUMMARY:".data ++ v) =
      some { task with text := v } := by
  rw [show ("SUMMARY:".data ++ v) = "SUMMARY".data ++ ':' :: v from rfl]
  simp only [parseLine]
  rw [if_pos (by simp), takeUntil_append ':' _ _ (by decide),
    afterFirst_append ':' _ _ (by decide),
    show toUpperStr (takeUntil ';' "SUMMARY".data) = "SUMMARY".data from rfl]
  simp

theorem parseLine_description (task : TaskData) (v : Str) :
    parseLine task ("DESCRIPTION:".data ++ v) =
      some { task with notes := unescapeNotes v } := by
  rw [show ("DESCRIPTION:".data ++ v) = "DESCRIPTION".data ++ ':' :: v from rfl]
  simp only [parseLine]
  rw [if_pos (by simp), takeUntil_append ':' _ _ (by decide),
    afterFirst_append ':' _ _ (by decide),
    show toUpperStr (takeUntil ';' "DESCRIPTION".data) = "DESCRIPTION".data from rfl]
  simp

theorem parseLine_dtstamp (task : TaskData) (v : Str) :
    parseLine task ("DTSTAMP:".data ++ v) =
      some { task with created_at := v } := by
  rw [show ("DTSTAMP:".data ++ v) = "DTSTAMP".data ++ ':' :: v from rfl]
  simp only [parseLine]
  rw [if_pos (by simp), takeUntil_append ':' _ _ (by decide),
    afterFirst_append ':' _ _ (by decide),
    show toUpperStr (takeUntil ';' "DTSTAMP".data) = "DTSTAMP".data from rfl]
  simp

theorem parseLine_lastmod (task : TaskData) (v : Str) :
    parseLine task ("LAST-MODIFIED:".data ++ v) =
      some { task with changed_at := v } := by
  rw [show ("LAST-MODIFIED:".data ++ v) = "LAST-MODIFIED".data ++ ':' :: v from rfl]
  simp only [parseLine]
  rw [if_pos (by simp), takeUntil_append ':' _ _ (by decide),
    afterFirst_append ':' _ _ (by decide),
    show toUpperStr (takeUntil ';' "LAST-MODIFIED".data) = "LAST-MODIFIED".data from rfl]
  simp

theorem parseLine_status (task : TaskData) (v : Str) :
    parseLine task ("STATUS:".data ++ v) =
      some { task with completed := v = "COMPLETED".data } := by
  rw [show ("STATUS:".data ++ v) = "STATUS".data ++ ':' :: v from rfl]
  simp only [parseLine]
  rw [if_pos (by simp), takeUntil_append ':' _ _ (by decide),
    afterFirst_append ':' _ _ (by decide),
    show toUpperStr (takeUntil ';' "STATUS".data) = "STATUS".data from rfl]
  simp

theorem parseLine_percent (task : TaskData) (v : Str) :
    parseLine task ("PERCENT-COMPLETE:".data ++ v) =
      (percentBranch v).map
        (fun n => { task with percent_complete := n }) := by
  rw [show ("PERCENT-COMPLETE:".data ++ v) = "PERCENT-COMPLETE".data ++ ':' :: v from rfl]
  simp only [parseLine]
  rw [if_pos (by simp), takeUntil_append ':' _ _ (by decide),
    afterFirst_append ':' _ _ (by decide),
    show toUpperStr (takeUntil ';' "PERCENT-COMPLETE".data) = "PERCENT-COMPLETE".data from rfl]
  simp

theorem parseLine_due (task : TaskData) (v : Str) (c : Prop) [Decidable c] :
    parseLine task
      ("DUE".data ++ (if c then ";VALUE=DATE".data else []) ++ ':' :: v) =
      some { task with due_date := v } := by
  by_cases hc : c
  · rw [if_pos hc]
    show parseLine task ("DUE;VALUE=DATE".data ++ ':' :: v) = _
    simp only [parseLine]
    rw [if_pos (by simp), takeUntil_append ':' _ _ (by decide),
      afterFirst_append ':' _ _ (by decide),
      show toUpperStr (takeUntil ';' "DUE;VALUE=DATE".data) = "DUE".data from rfl]
    simp
  · rw [if_neg hc]
    show parseLine task ("DUE".data ++ ':' :: v) = _
    simp only [parseLine]
    rw [if_pos (by simp), takeUntil_append ':' _ _ (by decide),
      afterFirst_append ':' _ _ (by decide),
      show toUpperStr (takeUntil ';' "DUE".data) = "DUE".data from rfl]
    simp

theorem parseLine_dtstart (task : TaskData) (v : Str) (c : Prop)
    [Decidable c] :
    parseLine task
      ("DTSTART".data ++ (if c then ";VALUE=DATE".data else []) ++ ':' :: v) =
      some { task with start_date := v } := by
  by_cases hc : c
  · rw [if_pos hc]
    show parseLine task ("DTSTART;VALUE=DATE".data ++ ':' :: v) = _
    simp only [parseLine]
    rw [if_pos (by simp), takeUntil_append ':' _ _ (by decide),
      afterFirst_append ':' _ _ (by decide),
      show toUpperStr (takeUntil ';' "DTSTART;VALUE=DATE".data) = "DTSTART".data from rfl]
    simp
  · rw [if_neg hc]
    show parseLine task ("DTSTART".data ++ ':' :: v) = _
    simp only [parseLine]
    rw [if_pos (by simp), takeUntil_append ':' _ _ (by decide),
      afterFirst_append ':' _ _ (by decide),
      show toUpperStr (takeUntil ';' "DTSTART".data) = "DTSTART".data from rfl]
    simp

theorem parseLine_priority (task : TaskData) (v : Str) :
    parseLine task ("PRIORITY:".data ++ v) =
      some { task with priority := (pyIntParse v).getD 0 } := by
  rw [show ("PRIORITY:".data ++ v) = "PRIORITY".data ++ ':' :: v from rfl]
  simp only [parseLine]
  rw [if_pos (by simp), takeUntil_append ':' _ _ (by decide),
    afterFirst_append ':' _ _ (by decide),
    show toUpperStr (takeUntil ';' "PRIORITY".data) = "PRIORITY".data from rfl]
  simp

theorem parseLine_related (task : TaskData) (v : Str) :
    parseLine task ("RELATED-TO:".data ++ v) =
      some { task with parent := v } := by
  rw [show ("RELATED-TO:".data ++ v) = "RELATED-TO".data ++ ':' :: v from rfl]
  simp only [parseLine]
  rw [if_pos (by simp), takeUntil_append ':' _ _ (by decide),
    afterFirst_append ':' _ _ (by decide),
    show toUpperStr (takeUntil ';' "RELATED-TO".data) = "RELATED-TO".data from rfl]
  simp

theorem parseLine_categories (task : TaskData) (v : Str) :
    parseLine task ("CATEGORIES:".data ++ v) =
      some { task with tags :=
        if v ≠ [] then
          ((splitComma v).map pyStrip).filter (fun tg => tg ≠ [])
        else [] } := by
  rw [show ("CATEGORIES:".data ++ v) = "CATEGORIES".data ++ ':' :: v from rfl]
  simp only [parseLine]
  rw [if_pos (by simp), takeUntil_append ':' _ _ (by decide),
    afterFirst_append ':' _ _ (by decide),
    show toUpperStr (takeUntil ';' "CATEGORIES".data) = "CATEGORIES".data from rfl]
  simp

theorem parseLine_rrule (task : TaskData) (v : Str) :
    parseLine task ("RRULE:".data ++ v) =
      some { task with rrule := v } := by
  rw [show ("RRULE:".data ++ v) = "RRULE".data ++ ':' :: v from rfl]
  simp only [parseLine]
  rw [if_pos (by simp), takeUntil_append ':' _ _ (by decide),
    afterFirst_append ':' _ _ (by decide),
    show toUpperStr (takeUntil ';' "RRULE".data) = "RRULE".data from rfl]
  simp

theorem parseLine_x (task : TaskData) (k v : Str) (hk : ':' ∉ k)
    (hX : ("X-".data).isPrefixOf (toUpperStr (takeUntil ';' k))) :
    parseLine task (k ++ ':' :: v) =
      some { task with x_properties :=
        (dictInsert task.x_properties k (unescapeX v)) } := by
  obtain ⟨r, hr⟩ := List.isPrefixOf_iff_prefix.mp hX
  simp only [parseLine]
  rw [if_pos (by simp), takeUntil_append ':' _ _ hk,
    afterFirst_append ':' _ _ hk, ← hr]
  simp [List.isPrefixOf]

theorem parseLine_skip (task : TaskData) (nm v : Str) (hk : ':' ∉ nm) :
    parseLine task (nm ++ ':' :: v) =
      (let pn := toUpperStr (takeUntil ';' nm)
      if pn = "UID".data then some { task with uid := v }
      else if pn = "SUMMARY".data then some { task with text := v }
      else if pn = "DESCRIPTION".data then
        some { task with notes := unescapeNotes v }
      else if pn = "DTSTAMP".data then some { task with created_at := v }
      else if pn = "LAST-MODIFIED".data then
        some { task with changed_at := v }
      else if pn = "STATUS".data then
        some { task with completed := v = "COMPLETED".data }
      else if pn = "PERCENT-COMPLETE".data then
        (percentBranch v).map (fun n => { task with percent_complete := n })
      else if pn = "DUE".data then some { task with due_date := v }
      else if pn = "DTSTART".data then some { task with start_date := v }
      else if pn = "PRIORITY".data then
        some { task with priority := (pyIntParse v).getD 0 }
      else if pn = "RELATED-TO".data then some { task with parent := v }
      else if pn = "CATEGORIES".data then
        some { task with tags :=
          if v ≠ [] then
            ((splitComma v).map pyStrip).filter (fun tg => tg ≠ [])
          else [] }
      else if pn = "RRULE".data then some { task with rrule := v }
      else if ("X-".data).isPrefixOf pn then
        some { task with x_properties :=
          (dictInsert task.x_properties nm (unescapeX v)) }
      else some task) := by
  simp only [parseLine]
  rw [if_pos (by simp), takeUntil_append ':' _ _ hk,
    afterFirst_append ':' _ _ hk]

/-! ## The parse loop -/

theorem parseAll_append (t : TaskData) (xs ys : List Str) :
    parseAll t (xs ++ ys) =
      match parseAll t xs with
      | none => none
      | some t' => parseAll t' ys := by
  induction xs generalizing t with
  | nil => simp [parseAll]
  | cons l ls ih =>
    simp only [List.cons_append, parseAll]
    cases parseLine t l with
    | none => rfl
    | some t2 => exact ih t2

theorem parseAll_opt (t t' : TaskData) (c : Prop) [Decidable c] (l : Str)
    (rest : List Str) (h : parseLine t l = some t') :
    parseAll t ((if c then [l] else []) ++ rest) =
      parseAll (if c then t' else t) rest := by
  by_cases hc : c
  · simp only [if_pos hc, List.singleton_append, parseAll, h]
  · simp only [if_neg hc, List.nil_append]

theorem parseLine_begin (task : TaskData) :
    parseLine task "BEGIN:VTODO".data = some task := by
  rw [show ("BEGIN:VTODO".data : Str) =
    "BEGIN".data ++ ':' :: "VTODO".data from rfl]
  rw [parseLine_skip task _ _ (by decide)]
  rw [show toUpperStr (takeUntil ';' "BEGIN".data) = "BEGIN".data from rfl]
  simp [List.isPrefixOf]

/-! ## Record-update helpers for optional lines -/

theorem if_upd_notes (c : Prop) [Decidable c] (t : TaskData) (x : Str) :
    (if c then { t with notes := x } else t) =
      { t with notes := if c then x else t.notes } := by
  split <;> rfl

theorem if_upd_due (c : Prop) [Decidable c] (t : TaskData) (x : Str) :
    (if c then { t with due_date := x } else t) =
      { t with due_date := if c then x else t.due_date } := by
  split <;> rfl

theorem if_upd_start (c : Prop) [Decidable c] (t : TaskData) (x : Str) :
    (if c then { t with start_date := x } else t) =
      { t with start_date := if c then x else t.start_date } := by
  split <;> rfl

theorem if_upd_priority (c : Prop) [Decidable c] (t : TaskData) (x : Int) :
    (if c then { t with priority := x } else t) =
      { t with priority := if c then x else t.priority } := by
  split <;> rfl

theorem if_upd_parent (c : Prop) [Decidable c] (t : TaskData) (x : Str) :
    (if c then { t with parent := x } else t) =
      { t with parent := if c then x else t.parent } := by
  split <;> rfl

theorem if_upd_tags (c : Prop) [Decidable c] (t : TaskData) (x : List Str) :
    (if c then { t with tags := x } else t) =
      { t with tags := if c then x else t.tags } := by
  split <;> rfl

theorem if_upd_rrule (c : Prop) [Decidable c] (t : TaskData) (x : Str) :
    (if c then { t with rrule := x } else t) =
      { t with rrule := if c then x else t.rrule } := by
  split <;> rfl

/-! ## The X-property tail of the parse loop -/

theorem parseAll_xs (xs : List (Str × Str)) (t : TaskData)
    (h : ∀ kv ∈ xs, (':' ∉ kv.1) ∧
      ("X-".data).isPrefixOf (toUpperStr (takeUntil ';' kv.1)) ∧
      '\\' ∉ kv.2) :
    parseAll t (xs.map (fun kv => kv.1 ++ ':' :: escapeX kv.2)) =
      some { t with x_properties :=
        (xs.foldl (fun m kv => dictInsert m kv.1 kv.2) t.x_properties) } := by
  induction xs generalizing t with
  | nil => rfl
  | cons kv rest ih =>
    have hkv := h kv (List.mem_cons_self kv rest)
    simp only [List.map_cons, parseAll,
      parseLine_x t kv.1 (escapeX kv.2) hkv.1 hkv.2.1,
      unescapeX_escapeX kv.2 hkv.2.2]
    rw [ih _ (fun x hx => h x (List.mem_cons_of_mem kv hx))]
    simp [List.foldl_cons]

theorem foldl_dictInsert (xs : List (Str × Str)) (acc : List (Str × Str))
    (hnodup : (xs.map Prod.fst).Nodup)
    (hdisj : ∀ kv ∈ xs, ∀ kv2 ∈ acc, kv.1 ≠ kv2.1) :
    xs.foldl (fun m kv => dictInsert m kv.1 kv.2) acc = acc ++ xs := by
  induction xs generalizing acc with
  | nil => simp
  | cons kv rest ih =>
    have hfresh : ¬(acc.any (fun p => p.1 = kv.1) = true) := by
      rw [List.any_eq_true]
      rintro ⟨p, hp, he⟩
      have hpe : p.1 = kv.1 := by simpa using he
      exact hdisj kv (List.mem_cons_self kv rest) p hp hpe.symm
    have hnd : kv.1 ∉ rest.map Prod.fst ∧ (rest.map Prod.fst).Nodup := by
      rw [List.map_cons, List.nodup_cons] at hnodup
      exact hnodup
    have hdisj' : ∀ p ∈ rest, ∀ q ∈ acc ++ [(kv.1, kv.2)], p.1 ≠ q.1 := by
      intro p hp q hq
      rcases List.mem_append.mp hq with hq1 | hq1
      · exact hdisj p (List.mem_cons_of_mem kv hp) q hq1
      · rcases List.mem_singleton.mp hq1 with rfl
        intro he
        exact hnd.1 (he ▸ List.mem_map_of_mem Prod.fst hp)
    rw [List.foldl_cons,
      show dictInsert acc kv.1 kv.2 = acc ++ [(kv.1, kv.2)] from by
        rw [dictInsert, if_neg hfresh],
      ih (acc ++ [(kv.1, kv.2)]) hnd.2 hdisj']
    simp

/-! ## CATEGORIES round trip -/

theorem splitComma_cons (c : Char) (t : Str) (h : c ≠ ',') :
    splitComma (c :: t) =
      match splitComma t with
      | [] => [[c]]
      | h :: r => (c :: h) :: r := by
  rw [splitComma.eq_def]
  split
  · rename_i heq; cases heq
  · rename_i heq; injection heq with heq1 _; exact absurd heq1 h
  · rename_i heq; injection heq with heq1 heq2; subst heq1; subst heq2; rfl

theorem splitComma_no_comma (s : Str) (h : ',' ∉ s) : splitComma s = [s] := by
  induction s with
  | nil => rfl
  | cons c t ih =>
    rw [splitComma_cons c t (fun he => h (he ▸ List.mem_cons_self c t)),
      ih (fun hm => h (List.mem_cons_of_mem c hm))]

theorem splitComma_append (x r : Str) (h : ',' ∉ x) :
    splitComma (x ++ ',' :: r) = x :: splitComma r := by
  induction x with
  | nil => rfl
  | cons c t ih =>
    simp only [List.cons_append]
    rw [splitComma_cons c _ (fun he => h (he ▸ List.mem_cons_self c t)),
      ih (fun hm => h (List.mem_cons_of_mem c hm))]

theorem splitComma_joinWith (tags : List Str) (hne : tags ≠ [])
    (h : ∀ tg ∈ tags, ',' ∉ tg) :
    splitComma (joinWith ',' tags) = tags := by
  induction tags with
  | nil => exact absurd rfl hne
  | cons x rest ih =>
    cases rest with
    | nil =>
      rw [joinWith, splitComma_no_comma x (h x (List.mem_cons_self x []))]
    | cons y rest2 =>
      rw [joinWith, splitComma_append x _ (h x (List.mem_cons_self x _)),
        ih (by simp) (fun tg htg => h tg (List.mem_cons_of_mem x htg))]

theorem joinWith_ne_nil (x : Str) (rest : List Str) (hx : x ≠ []) :
    joinWith ',' (x :: rest) ≠ [] := by
  cases rest with
  | nil => rw [joinWith]; exact hx
  | cons y r =>
    rw [joinWith]
    simp

theorem joinNl_append (a b : List Str) :
    joinNl (a ++ b) = joinNl a ++ joinNl b := by
  simp [joinNl]

theorem joinNl_cons (l : Str) (ls : List Str) :
    joinNl (l :: ls) = l ++ '\n' :: joinNl ls := by
  simp [joinNl]

theorem joinNl_ite (c : Prop) [Decidable c] (l : Str) :
    joinNl (if c then [l] else []) = if c then l ++ ['\n'] else [] := by
  split <;> simp [joinNl]

theorem joinNl_map_x (xs : List (Str × Str)) :
    joinNl (xs.map (fun kv => kv.1 ++ ':' :: escapeX kv.2)) =
      (xs.map (fun kv => kv.1 ++ ':' :: (escapeX kv.2 ++ ['\n']))).flatten := by
  rw [joinNl, List.map_map]
  have hf : ((fun l => l ++ ['\n']) ∘ fun kv : Str × Str =>
      kv.1 ++ ':' :: escapeX kv.2) =
      (fun kv : Str × Str => kv.1 ++ ':' :: (escapeX kv.2 ++ ['\n'])) := by
    funext kv
    simp [Function.comp, List.append_assoc]
  rw [hf]

theorem toIcal_fst (t : TaskData) :
    (toIcal t).1 = if t.completed ∧ t.percent_complete < 100 then
      { t with percent_complete := 100 } else t := rfl

theorem toIcal_snd (t : TaskData) :
    (toIcal t).2 = joinNl (icalLines (toIcal t).1 ++ ["END:VTODO".data]) := by
  rw [show (toIcal t).2 =
      (let u := (toIcal t).1
       "BEGIN:VTODO\n".data ++
       "UID:".data ++ u.uid ++ ['\n'] ++
       "SUMMARY:".data ++ u.text ++ ['\n'] ++
       (if u.notes ≠ [] then
         "DESCRIPTION:".data ++ escapeNotes u.notes ++ ['\n'] else []) ++
       "DTSTAMP:".data ++ u.created_at ++ ['\n'] ++
       "LAST-MODIFIED:".data ++ u.changed_at ++ ['\n'] ++
       "STATUS:".data ++
         (if u.completed then "COMPLETED".data else "NEEDS-ACTION".data) ++
         ['\n'] ++
       "PERCENT-COMPLETE:".data ++ intToStr u.percent_complete ++ ['\n'] ++
       (if u.due_date ≠ [] then
         "DUE".data ++
           (if ¬('T' ∈ u.due_date) then ";VALUE=DATE".data else []) ++
           [':'] ++ u.due_date ++ ['\n'] else []) ++
       (if u.start_date ≠ [] then
         "DTSTART".data ++
           (if ¬('T' ∈ u.start_date) then ";VALUE=DATE".data else []) ++
           [':'] ++ u.start_date ++ ['\n'] else []) ++
       (if u.priority ≠ 0 then
         "PRIORITY:".data ++ intToStr u.priority ++ ['\n'] else []) ++
       (if u.parent ≠ [] then
         "RELATED-TO:".data ++ u.parent ++ ['\n'] else []) ++
       (if u.tags ≠ [] then
         "CATEGORIES:".data ++ joinWith ',' u.tags ++ ['\n'] else []) ++
       (if u.rrule ≠ [] then "RRULE:".data ++ u.rrule ++ ['\n'] else []) ++
       (u.x_properties.map
         (fun kv => kv.1 ++ [':'] ++ escapeX kv.2 ++ ['\n'])).flatten ++
       "END:VTODO\n".data) from rfl]
  generalize (toIcal t).1 = u
  simp only [icalLines, joinNl_append, joinNl_cons, joinNl_ite, joinNl_map_x,
    show joinNl [] = [] from rfl,
    show ("BEGIN:VTODO\n").data = "BEGIN:VTODO".data ++ ['\n'] from rfl,
    List.map_map, Function.comp, List.append_assoc,
    List.cons_append, List.singleton_append, List.nil_append,
    List.flatten_nil, List.append_nil]

/-- The record `TaskData(list_uid=...)` that `from_ical` starts from. -/
theorem postInit_start (now f1 lid : Str) :
    postInit now f1 { list_uid := lid } =
      { list_uid := lid, uid := f1, created_at := now,
        changed_at := now } := by
  simp [postInit]

/-! ## Per-segment fold lemmas (no side conditions, usable by `simp`) -/

theorem parseAll_optDesc (t : TaskData) (c : Prop) [Decidable c] (v : Str)
    (rest : List Str) :
    parseAll t ((if c then ["DESCRIPTION:".data ++ escapeNotes v]
        else []) ++ rest) =
      parseAll
        { t with notes := if c then unescapeNotes (escapeNotes v)
            else t.notes } rest := by
  rw [parseAll_opt t _ c ("DESCRIPTION:".data ++ escapeNotes v) rest
    (parseLine_description t (escapeNotes v)), if_upd_notes]

theorem parseAll_optDue (t : TaskData) (c : Prop) [Decidable c] (d : Prop)
    [Decidable d] (v : Str) (rest : List Str) :
    parseAll t ((if c then
        ["DUE".data ++ (if d then ";VALUE=DATE".data else []) ++ ':' :: v]
        else []) ++ rest) =
      parseAll { t with due_date := if c then v else t.due_date } rest := by
  rw [parseAll_opt t _ c
    ("DUE".data ++ (if d then ";VALUE=DATE".data else []) ++ ':' :: v)
    rest (parseLine_due t v d), if_upd_due]

theorem parseAll_optStart (t : TaskData) (c : Prop) [Decidable c] (d : Prop)
    [Decidable d] (v : Str) (rest : List Str) :
    parseAll t ((if c then
        ["DTSTART".data ++ (if d then ";VALUE=DATE".data else []) ++
          ':' :: v] else []) ++ rest) =
      parseAll { t with start_date := if c then v else t.start_date }
        rest := by
  rw [parseAll_opt t _ c
    ("DTSTART".data ++ (if d then ";VALUE=DATE".data else []) ++ ':' :: v)
    rest (parseLine_dtstart t v d), if_upd_start]

theorem parseAll_optPrio (t : TaskData) (c : Prop) [Decidable c] (z : Int)
    (rest : List Str) :
    parseAll t ((if c then ["PRIORITY:".data ++ intToStr z] else []) ++
        rest) =
      parseAll { t with priority :=
        if c then (pyIntParse (intToStr z)).getD 0 else t.priority }
        rest := by
  rw [parseAll_opt t _ c ("PRIORITY:".data ++ intToStr z) rest
    (parseLine_priority t (intToStr z)), if_upd_priority]

theorem parseAll_optParent (t : TaskData) (c : Prop) [Decidable c] (v : Str)
    (rest : List Str) :
    parseAll t ((if c then ["RELATED-TO:".data ++ v] else []) ++ rest) =
      parseAll { t with parent := if c then v else t.parent } rest := by
  rw [parseAll_opt t _ c ("RELATED-TO:".data ++ v) rest
    (parseLine_related t v), if_upd_parent]

theorem parseAll_optCat (t : TaskData) (c : Prop) [Decidable c]
    (tags : List Str) (rest : List Str) :
    parseAll t ((if c then ["CATEGORIES:".data ++ joinWith ',' tags]
        else []) ++ rest) =
      parseAll { t with tags :=
        if c then
          (if joinWith ',' tags ≠ [] then
            ((splitComma (joinWith ',' tags)).map pyStrip).filter
              (fun tg => tg ≠ [])
          else [])
        else t.tags } rest := by
  rw [parseAll_opt t _ c ("CATEGORIES:".data ++ joinWith ',' tags) rest
    (parseLine_categories t (joinWith ',' tags)), if_upd_tags]

theorem parseAll_optRrule (t : TaskData) (c : Prop) [Decidable c] (v : Str)
    (rest : List Str) :
    parseAll t ((if c then ["RRULE:".data ++ v] else []) ++ rest) =
      parseAll { t with rrule := if c then v else t.rrule } rest := by
  rw [parseAll_opt t _ c ("RRULE:".data ++ v) rest
    (parseLine_rrule t v), if_upd_rrule]

theorem statusVal (b : Bool) :
    decide ((if b = true then "COMPLETED".data else "NEEDS-ACTION".data) =
      "COMPLETED".data) = b := by
  cases b <;> decide

theorem statusValChars (b : Bool) :
    decide ((if b = true then ['C','O','M','P','L','E','T','E','D']
      else ['N','E','E','D','S','-','A','C','T','I','O','N']) =
      ['C','O','M','P','L','E','T','E','D']) = b := by
  cases b <;> decide

theorem parseAll_cons_some (t t' : TaskData) (l : Str) (ls : List Str)
    (h : parseLine t l = some t') : parseAll t (l :: ls) = parseAll t' ls := by
  simp [parseAll, h]

theorem parseLine_percent_some (task : TaskData) (v : Str) (n : Int)
    (h : percentBranch v = some n) :
    parseLine task ("PERCENT-COMPLETE:".data ++ v) =
      some { task with percent_complete := n } := by
  rw [parseLine_percent, h]
  rfl

theorem parseAll_icalLines (u : TaskData) (lid f1 now : Str)
    (hp1 : 0 ≤ u.percent_complete) (hp2 : u.percent_complete ≤ 100)
    (hx : ∀ kv ∈ u.x_properties,
      xKeyOK kv.1 ∧ '\\' ∉ kv.2 ∧ noHardBr kv.2) :
    parseAll
      { list_uid := lid, uid := f1, created_at := now, changed_at := now }
      (icalLines u) =
    some
      { attachments := [],
        completed := u.completed,
        changed_at := u.changed_at,
        created_at := u.created_at,
        deleted := false,
        due_date := if u.due_date ≠ [] then u.due_date else [],
        list_uid := lid,
        notes :=
          if u.notes ≠ [] then unescapeNotes (escapeNotes u.notes) else [],
        notified := false,
        parent := if u.parent ≠ [] then u.parent else [],
        percent_complete := u.percent_complete,
        priority :=
          if u.priority ≠ 0 then (pyIntParse (intToStr u.priority)).getD 0
          else 0,
        rrule := if u.rrule ≠ [] then u.rrule else [],
        start_date := if u.start_date ≠ [] then u.start_date else [],
        synced := false,
        tags :=
          if u.tags ≠ [] then
            (if joinWith ',' u.tags ≠ [] then
              ((splitComma (joinWith ',' u.tags)).map pyStrip).filter
                (fun tg => tg ≠ [])
            else [])
          else [],
        text := u.text,
        trash := false,
        uid := u.uid,
        x_properties :=
          (u.x_properties.foldl (fun m kv => dictInsert m kv.1 kv.2) []) }
      := by
  have hpc : percentBranch (intToStr u.percent_complete) =
      some u.percent_complete := by
    obtain ⟨n, hn⟩ : ∃ n : Nat, u.percent_complete = (n : Int) :=
      ⟨u.percent_complete.toNat, (Int.toNat_of_nonneg hp1).symm⟩
    have hb : (100 : Nat) < 2 ^ 1024 := by
      calc (100 : Nat) < 2 ^ 7 := by norm_num
        _ ≤ 2 ^ 1024 := Nat.pow_le_pow_right (by norm_num) (by norm_num)
    rw [hn, intToStr_ofNat, percentBranch_natToStr]
    have hn2 : (n : Int) ≤ 100 := hn ▸ hp2
    omega
  have hx' : ∀ kv ∈ u.x_properties, (':' ∉ kv.1) ∧
      ("X-".data).isPrefixOf (toUpperStr (takeUntil ';' kv.1)) ∧
      '\\' ∉ kv.2 := by
    intro kv hkv
    obtain ⟨⟨a, _, b⟩, c, _⟩ := hx kv hkv
    exact ⟨a, b, c⟩
  rw [icalLines]
  rw [parseAll_cons_some _ _ _ _ (parseLine_begin _)]
  dsimp only
  rw [parseAll_cons_some _ _ _ _ (parseLine_uid _ u.uid)]
  dsimp only
  rw [parseAll_cons_some _ _ _ _ (parseLine_summary _ u.text)]
  dsimp only
  rw [parseAll_optDesc]
  dsimp only
  rw [parseAll_cons_some _ _ _ _ (parseLine_dtstamp _ u.created_at)]
  dsimp only
  rw [parseAll_cons_some _ _ _ _ (parseLine_lastmod _ u.changed_at)]
  dsimp only
  rw [parseAll_cons_some _ _ _ _ (parseLine_status _ _)]
  dsimp only
  rw [parseAll_cons_some _ _ _ _
    (parseLine_percent_some _ _ _ hpc)]
  dsimp only
  rw [parseAll_optDue]
  dsimp only
  rw [parseAll_optStart]
  dsimp only
  rw [parseAll_optPrio]
  dsimp only
  rw [parseAll_optParent]
  dsimp only
  rw [parseAll_optCat]
  dsimp only
  rw [parseAll_optRrule]
  dsimp only
  rw [parseAll_xs u.x_properties _ hx']
  rw [statusValChars u.completed]

theorem noBr_append {a b : Str} (ha : noBr a) (hb : noBr b) :
    noBr (a ++ b) := by
  intro x hx
  rcases List.mem_append.mp hx with hc | hc
  · exact ha x hc
  · exact hb x hc

theorem noBr_cons {c : Char} {t : Str} (h1 : isLineBreak c = false)
    (ht : noBr t) : noBr (c :: t) := by
  intro x hx
  rcases List.mem_cons.mp hx with rfl | hc
  · exact h1
  · exact ht x hc

theorem noBr_ite (c : Prop) [Decidable c] {a b : Str} (ha : noBr a)
    (hb : noBr b) : noBr (if c then a else b) := by
  split
  · exact ha
  · exact hb

theorem escapeNotes_mem (a : Char) (s : Str) (ha : a ∈ escapeNotes s) :
    a = '\\' ∨ a = 'n' ∨ a = ',' ∨ (a ∈ s ∧ a ≠ '\n') := by
  rw [escapeNotes_eq] at ha
  rcases List.mem_flatten.mp ha with ⟨blk, hblk, hablk⟩
  rcases List.mem_map.mp hblk with ⟨c, hc, rfl⟩
  rw [escN] at hablk
  by_cases h1 : c = '\n'
  · rw [if_pos h1] at hablk
    rcases List.mem_cons.mp hablk with h | h
    · exact Or.inl h
    · exact Or.inr (Or.inl (List.mem_singleton.mp h))
  · rw [if_neg h1] at hablk
    by_cases h2 : c = ','
    · rw [if_pos h2] at hablk
      rcases List.mem_cons.mp hablk with h | h
      · exact Or.inl h
      · exact Or.inr (Or.inr (Or.inl (List.mem_singleton.mp h)))
    · rw [if_neg h2] at hablk
      rcases List.mem_singleton.mp hablk with rfl
      exact Or.inr (Or.inr (Or.inr ⟨hc, h1⟩))

theorem escapeX_mem (a : Char) (s : Str) (ha : a ∈ escapeX s) :
    a = '\\' ∨ a = 'n' ∨ a = ',' ∨ a = ';' ∨ (a ∈ s ∧ a ≠ '\n') := by
  rw [escapeX_eq] at ha
  rcases List.mem_flatten.mp ha with ⟨blk, hblk, hablk⟩
  rcases List.mem_map.mp hblk with ⟨c, hc, rfl⟩
  rw [escX3] at hablk
  by_cases h1 : c = '\n'
  · rw [if_pos h1] at hablk
    rcases List.mem_cons.mp hablk with h | h
    · exact Or.inl h
    · exact Or.inr (Or.inl (List.mem_singleton.mp h))
  · rw [if_neg h1] at hablk
    by_cases h2 : c = ','
    · rw [if_pos h2] at hablk
      rcases List.mem_cons.mp hablk with h | h
      · exact Or.inl h
      · exact Or.inr (Or.inr (Or.inl (List.mem_singleton.mp h)))
    · rw [if_neg h2] at hablk
      by_cases h3 : c = ';'
      · rw [if_pos h3] at hablk
        rcases List.mem_cons.mp hablk with h | h
        · exact Or.inl h
        · exact Or.inr (Or.inr (Or.inr (Or.inl (List.mem_singleton.mp h))))
      · rw [if_neg h3] at hablk
        rcases List.mem_singleton.mp hablk with rfl
        exact Or.inr (Or.inr (Or.inr (Or.inr ⟨hc, h1⟩)))

theorem noBr_escapeNotes (s : Str) (h : noHardBr s) :
    noBr (escapeNotes s) := by
  intro x hx
  rcases escapeNotes_mem x s hx with h1 | h1 | h1 | h1
  · rw [h1]; decide
  · rw [h1]; decide
  · rw [h1]; decide
  · exact h x h1.1 h1.2

theorem noBr_escapeX (s : Str) (h : noHardBr s) : noBr (escapeX s) := by
  intro x hx
  rcases escapeX_mem x s hx with h1 | h1 | h1 | h1 | h1
  · rw [h1]; decide
  · rw [h1]; decide
  · rw [h1]; decide
  · rw [h1]; decide
  · exact h x h1.1 h1.2

theorem mem_joinWith (a : Char) (ls : List Str) (ha : a ∈ joinWith ',' ls) :
    a = ',' ∨ ∃ tg ∈ ls, a ∈ tg := by
  induction ls with
  | nil => exact absurd ha (List.not_mem_nil a)
  | cons x rest ih =>
    cases rest with
    | nil =>
      rw [joinWith] at ha
      exact Or.inr ⟨x, List.mem_singleton.mpr rfl, ha⟩
    | cons y r =>
      rw [joinWith] at ha
      rcases List.mem_append.mp ha with hc | hc
      · exact Or.inr ⟨x, List.mem_cons_self x _, hc⟩
      · rcases List.mem_cons.mp hc with rfl | hc
        · exact Or.inl rfl
        · rcases ih hc with h1 | ⟨tg, htg, hatg⟩
          · exact Or.inl h1
          · exact Or.inr ⟨tg, List.mem_cons_of_mem x htg, hatg⟩

theorem noBr_joinWith (ls : List Str) (h : ∀ tg ∈ ls, noBr tg) :
    noBr (joinWith ',' ls) := by
  intro x hx
  rcases mem_joinWith x ls hx with h1 | ⟨tg, htg, hatg⟩
  · rw [h1]; decide
  · exact h tg htg x hatg

theorem isLineBreak_digit (c : Char) (h1 : 48 ≤ c.toNat)
    (h2 : c.toNat ≤ 57) : isLineBreak c = false := by
  simp only [isLineBreak, decide_eq_false_iff_not]
  omega

theorem noBr_intToStr (z : Int) (hz : 0 ≤ z) : noBr (intToStr z) := by
  obtain ⟨n, rfl⟩ : ∃ n : Nat, z = (n : Int) :=
    ⟨z.toNat, (Int.toNat_of_nonneg hz).symm⟩
  rw [intToStr_ofNat]
  intro x hx
  have hb := natToStr_chars n x hx
  exact isLineBreak_digit x hb.1 hb.2

/-! ## Field projections of the post-`to_ical` record -/

theorem toIcal_fst_uid (t : TaskData) : (toIcal t).1.uid = t.uid := by
  rw [toIcal_fst]; split <;> rfl

theorem toIcal_fst_text (t : TaskData) : (toIcal t).1.text = t.text := by
  rw [toIcal_fst]; split <;> rfl

theorem toIcal_fst_notes (t : TaskData) : (toIcal t).1.notes = t.notes := by
  rw [toIcal_fst]; split <;> rfl

theorem toIcal_fst_created (t : TaskData) :
    (toIcal t).1.created_at = t.created_at := by
  rw [toIcal_fst]; split <;> rfl

theorem toIcal_fst_changed (t : TaskData) :
    (toIcal t).1.changed_at = t.changed_at := by
  rw [toIcal_fst]; split <;> rfl

theorem toIcal_fst_completed (t : TaskData) :
    (toIcal t).1.completed = t.completed := by
  rw [toIcal_fst]; split <;> rfl

theorem toIcal_fst_due (t : TaskData) :
    (toIcal t).1.due_date = t.due_date := by
  rw [toIcal_fst]; split <;> rfl

theorem toIcal_fst_start (t : TaskData) :
    (toIcal t).1.start_date = t.start_date := by
  rw [toIcal_fst]; split <;> rfl

theorem toIcal_fst_priority (t : TaskData) :
    (toIcal t).1.priority = t.priority := by
  rw [toIcal_fst]; split <;> rfl

theorem toIcal_fst_parent (t : TaskData) :
    (toIcal t).1.parent = t.parent := by
  rw [toIcal_fst]; split <;> rfl

theorem toIcal_fst_tags (t : TaskData) : (toIcal t).1.tags = t.tags := by
  rw [toIcal_fst]; split <;> rfl

theorem toIcal_fst_rrule (t : TaskData) : (toIcal t).1.rrule = t.rrule := by
  rw [toIcal_fst]; split <;> rfl

theorem toIcal_fst_xs (t : TaskData) :
    (toIcal t).1.x_properties = t.x_properties := by
  rw [toIcal_fst]; split <;> rfl

theorem toIcal_fst_listuid (t : TaskData) :
    (toIcal t).1.list_uid = t.list_uid := by
  rw [toIcal_fst]; split <;> rfl

theorem toIcal_fst_pc_lb (t : TaskData) (h : 0 ≤ t.percent_complete) :
    0 ≤ (toIcal t).1.percent_complete := by
  rw [toIcal_fst]; split
  · exact le_of_lt (by norm_num)
  · exact h

theorem toIcal_fst_pc_ub (t : TaskData) (h : t.percent_complete ≤ 100) :
    (toIcal t).1.percent_complete ≤ 100 := by
  rw [toIcal_fst]; split
  · exact le_refl _
  · exact h

theorem toIcal_fst_fix (t : TaskData) :
    ¬((toIcal t).1.completed = true ∧
      (toIcal t).1.percent_complete < 100) := by
  rw [toIcal_fst]
  by_cases hc : t.completed = true ∧ t.percent_complete < 100
  · rw [if_pos hc]
    intro hq
    exact absurd hq.2 (by norm_num)
  · rw [if_neg hc]
    intro hq
    exact hc ⟨hq.1, hq.2⟩

theorem mem_ite_singleton {α : Type} {l x : α} {c : Prop} [Decidable c]
    (h : l ∈ (if c then [x] else [])) : l = x := by
  split at h
  · exact List.mem_singleton.mp h
  · exact absurd h (List.not_mem_nil l)

theorem icalLines_noBreak (w : TaskData)
    (h1 : noBr w.uid) (h2 : noBr w.text) (h3 : noHardBr w.notes)
    (h4 : noBr w.created_at) (h5 : noBr w.changed_at)
    (h6 : 0 ≤ w.percent_complete)
    (h7 : noBr w.due_date) (h8 : noBr w.start_date)
    (h9 : 0 ≤ w.priority)
    (h10 : noBr w.parent) (h11 : noBr w.rrule)
    (h12 : ∀ tg ∈ w.tags, noBr tg)
    (h13 : ∀ kv ∈ w.x_properties, noBr kv.1 ∧ noHardBr kv.2) :
    ∀ l ∈ icalLines w, noBr l := by
  intro l hl
  rw [icalLines] at hl
  rcases List.mem_cons.mp hl with rfl | hl
  · exact (by decide : noBr "BEGIN:VTODO".data)
  rcases List.mem_cons.mp hl with rfl | hl
  · exact noBr_append (by decide) h1
  rcases List.mem_cons.mp hl with rfl | hl
  · exact noBr_append (by decide) h2
  rcases List.mem_append.mp hl with hD | hl
  · rcases mem_ite_singleton hD with rfl
    exact noBr_append (by decide) (noBr_escapeNotes _ h3)
  rcases List.mem_cons.mp hl with rfl | hl
  · exact noBr_append (by decide) h4
  rcases List.mem_cons.mp hl with rfl | hl
  · exact noBr_append (by decide) h5
  rcases List.mem_cons.mp hl with rfl | hl
  · exact noBr_append (by decide) (noBr_ite _ (by decide) (by decide))
  rcases List.mem_cons.mp hl with rfl | hl
  · exact noBr_append (by decide) (noBr_intToStr _ h6)
  rcases List.mem_append.mp hl with hD | hl
  · rcases mem_ite_singleton hD with rfl
    exact noBr_append
      (noBr_append (by decide) (noBr_ite _ (by decide) (by decide)))
      (noBr_cons (by decide) h7)
  rcases List.mem_append.mp hl with hD | hl
  · rcases mem_ite_singleton hD with rfl
    exact noBr_append
      (noBr_append (by decide) (noBr_ite _ (by decide) (by decide)))
      (noBr_cons (by decide) h8)
  rcases List.mem_append.mp hl with hD | hl
  · rcases mem_ite_singleton hD with rfl
    exact noBr_append (by decide) (noBr_intToStr _ h9)
  rcases List.mem_append.mp hl with hD | hl
  · rcases mem_ite_singleton hD with rfl
    exact noBr_append (by decide) h10
  rcases List.mem_append.mp hl with hD | hl
  · rcases mem_ite_singleton hD with rfl
    exact noBr_append (by decide) (noBr_joinWith _ h12)
  rcases List.mem_append.mp hl with hD | hl
  · rcases mem_ite_singleton hD with rfl
    exact noBr_append (by decide) h11
  rcases List.mem_map.mp hl with ⟨kv, hkv, rfl⟩
  exact noBr_append (h13 kv hkv).1
    (noBr_cons (by decide) (noBr_escapeX _ (h13 kv hkv).2))

theorem xkey_head (k : Str)
    (h : ("X-".data).isPrefixOf (toUpperStr (takeUntil ';' k)) = true) :
    ∃ c rest, k = c :: rest ∧ c ≠ ' ' ∧ c ≠ '\t' := by
  match k with
  | [] => exact absurd h (by decide)
  | c :: rest =>
    refine ⟨c, rest, rfl, ?_, ?_⟩ <;> rintro rfl <;>
      simp [takeUntil, toUpperStr, List.isPrefixOf] at h

theorem not_fold_of_head (l : Str) (c : Char) (hc1 : c ≠ ' ')
    (hc2 : c ≠ '\t') (h : l.head? = some c) :
    ¬(l.head? = some ' ' ∨ l.head? = some '\t') := by
  rintro (hh | hh) <;> rw [h] at hh <;> injection hh with hh
  · exact hc1 hh
  · exact hc2 hh

theorem icalLines_noFold (w : TaskData)
    (hx : ∀ kv ∈ w.x_properties,
      ("X-".data).isPrefixOf (toUpperStr (takeUntil ';' kv.1)) = true) :
    ∀ l ∈ icalLines w, ¬(l.head? = some ' ' ∨ l.head? = some '\t') := by
  intro l hl
  rw [icalLines] at hl
  rcases List.mem_cons.mp hl with rfl | hl
  · exact not_fold_of_head _ 'B' (by decide) (by decide) rfl
  rcases List.mem_cons.mp hl with rfl | hl
  · exact not_fold_of_head _ 'U' (by decide) (by decide) rfl
  rcases List.mem_cons.mp hl with rfl | hl
  · exact not_fold_of_head _ 'S' (by decide) (by decide) rfl
  rcases List.mem_append.mp hl with hD | hl
  · rcases mem_ite_singleton hD with rfl
    exact not_fold_of_head _ 'D' (by decide) (by decide) rfl
  rcases List.mem_cons.mp hl with rfl | hl
  · exact not_fold_of_head _ 'D' (by decide) (by decide) rfl
  rcases List.mem_cons.mp hl with rfl | hl
  · exact not_fold_of_head _ 'L' (by decide) (by decide) rfl
  rcases List.mem_cons.mp hl with rfl | hl
  · exact not_fold_of_head _ 'S' (by decide) (by decide) rfl
  rcases List.mem_cons.mp hl with rfl | hl
  · exact not_fold_of_head _ 'P' (by decide) (by decide) rfl
  rcases List.mem_append.mp hl with hD | hl
  · rcases mem_ite_singleton hD with rfl
    exact not_fold_of_head _ 'D' (by decide) (by decide) rfl
  rcases List.mem_append.mp hl with hD | hl
  · rcases mem_ite_singleton hD with rfl
    exact not_fold_of_head _ 'D' (by decide) (by decide) rfl
  rcases List.mem_append.mp hl with hD | hl
  · rcases mem_ite_singleton hD with rfl
    exact not_fold_of_head _ 'P' (by decide) (by decide) rfl
  rcases List.mem_append.mp hl with hD | hl
  · rcases mem_ite_singleton hD with rfl
    exact not_fold_of_head _ 'R' (by decide) (by decide) rfl
  rcases List.mem_append.mp hl with hD | hl
  · rcases mem_ite_singleton hD with rfl
    exact not_fold_of_head _ 'C' (by decide) (by decide) rfl
  rcases List.mem_append.mp hl with hD | hl
  · rcases mem_ite_singleton hD with rfl
    exact not_fold_of_head _ 'R' (by decide) (by decide) rfl
  rcases List.mem_map.mp hl with ⟨kv, hkv, rfl⟩
  obtain ⟨c, rest, hk, hc1, hc2⟩ := xkey_head kv.1 (hx kv hkv)
  refine not_fold_of_head _ c hc1 hc2 ?_
  rw [hk]
  rfl

theorem ite_ne_nil (v : Str) : (if v ≠ [] then v else []) = v := by
  by_cases h : v = []
  · rw [if_neg (fun hq => hq h), h]
  · rw [if_pos h]

theorem map_id_of_mem {α : Type} (f : α → α) (l : List α)
    (h : ∀ x ∈ l, f x = x) : l.map f = l := by
  induction l with
  | nil => rfl
  | cons x r ih =>
    rw [List.map_cons, h x (List.mem_cons_self x r),
      ih (fun y hy => h y (List.mem_cons_of_mem x hy))]

theorem filter_id_of_mem {α : Type} (p : α → Bool) (l : List α)
    (h : ∀ x ∈ l, p x = true) : l.filter p = l := by
  induction l with
  | nil => rfl
  | cons x r ih =>
    rw [List.filter_cons, if_pos (h x (List.mem_cons_self x r)),
      ih (fun y hy => h y (List.mem_cons_of_mem x hy))]

theorem fromIcal_toIcal (t : TaskData) (now f1 f2 : Str)
    (h : wellFormed t) :
    fromIcal now f1 f2 (toIcal t).2 t.list_uid =
      some { attachments := [], completed := (toIcal t).1.completed,
             changed_at := (toIcal t).1.changed_at,
             created_at := (toIcal t).1.created_at, deleted := false,
             due_date := (toIcal t).1.due_date, list_uid := t.list_uid,
             notes := (toIcal t).1.notes, notified := false,
             parent := (toIcal t).1.parent,
             percent_complete := (toIcal t).1.percent_complete,
             priority := (toIcal t).1.priority,
             rrule := (toIcal t).1.rrule,
             start_date := (toIcal t).1.start_date, synced := true,
             tags := (toIcal t).1.tags, text := (toIcal t).1.text,
             trash := false, uid := (toIcal t).1.uid,
             x_properties := (toIcal t).1.x_properties } := by
  obtain ⟨huid, huidb, htxb, hnob, hnoh, hcr0, hcrb, hch0, hchb,
    hp1, hp2, hdub, hstb, hpr1, hpr2, hpab, hrrb,
    htags, hxs2, hnodup, hend⟩ := h
  have hsnd : (toIcal t).2 =
      joinNl (icalLines (toIcal t).1) ++ "END:VTODO\n".data := by
    rw [toIcal_snd, joinNl_append,
      show joinNl ["END:VTODO".data] = "END:VTODO\n".data from rfl]
  have hbegin : findSub (toIcal t).2 "BEGIN:VTODO".data = some 0 := by
    apply findSub_of_isPrefixOf
    rw [hsnd, show icalLines (toIcal t).1 =
        "BEGIN:VTODO".data :: (icalLines (toIcal t).1).tail from rfl,
      joinNl_cons]
    exact List.isPrefixOf_iff_prefix.mpr
      ((List.prefix_append _ _).trans (List.prefix_append _ _))
  have hlen : (toIcal t).2.length - 10 =
      (joinNl (icalLines (toIcal t).1)).length := by
    rw [hsnd, List.length_append,
      show ("END:VTODO\n".data).length = 10 from rfl]
    omega
  have hslice : pySlice (toIcal t).2 0 ((toIcal t).2.length - 10) =
      joinNl (icalLines (toIcal t).1) := by
    rw [pySlice, List.drop_zero, Nat.sub_zero, hlen, hsnd]
    exact List.take_left _ _
  have hnoBr : ∀ l ∈ icalLines (toIcal t).1, noBr l := by
    apply icalLines_noBreak
    · rw [toIcal_fst_uid]
      exact huidb
    · rw [toIcal_fst_text]
      exact htxb
    · rw [toIcal_fst_notes]
      exact hnoh
    · rw [toIcal_fst_created]
      exact hcrb
    · rw [toIcal_fst_changed]
      exact hchb
    · exact toIcal_fst_pc_lb t hp1
    · rw [toIcal_fst_due]
      exact hdub
    · rw [toIcal_fst_start]
      exact hstb
    · rw [toIcal_fst_priority]
      exact hpr1
    · rw [toIcal_fst_parent]
      exact hpab
    · rw [toIcal_fst_rrule]
      exact hrrb
    · rw [toIcal_fst_tags]
      intro tg htg
      exact (htags tg htg).2.1
    · rw [toIcal_fst_xs]
      intro kv hkv
      exact ⟨(hxs2 kv hkv).1.2.1, (hxs2 kv hkv).2.2⟩
  have hsplit : splitlines (joinNl (icalLines (toIcal t).1)) =
      icalLines (toIcal t).1 := splitlines_joinNl _ hnoBr
  have hnoFold : unfoldLines (icalLines (toIcal t).1) =
      icalLines (toIcal t).1 := by
    apply unfoldLines_eq
    apply icalLines_noFold
    intro kv hkv
    rw [toIcal_fst_xs] at hkv
    exact (hxs2 kv hkv).1.2.2
  have hparse := parseAll_icalLines (toIcal t).1 t.list_uid f1 now
    (toIcal_fst_pc_lb t hp1) (toIcal_fst_pc_ub t hp2)
    (by
      intro kv hkv
      rw [toIcal_fst_xs] at hkv
      exact hxs2 kv hkv)
  have hcontains : containsSub (toIcal t).2 "BEGIN:VTODO".data = true := by
    rw [containsSub, hbegin]
    rfl
  rw [fromIcal, postInit_start]
  dsimp only
  rw [hcontains, if_pos rfl, hbegin, hend]
  dsimp only
  rw [hslice, hsplit, hnoFold, hparse]
  dsimp only
  have hne1 : ¬((toIcal t).1.uid = []) := by
    rw [toIcal_fst_uid]
    exact huid
  rw [if_neg hne1]
  have hne2 : ¬((toIcal t).1.changed_at = [] ∧
      (toIcal t).1.created_at ≠ []) := by
    intro hq
    apply hch0
    rw [← toIcal_fst_changed t]
    exact hq.1
  rw [if_neg hne2]
  have hFnotes : (if (toIcal t).1.notes ≠ [] then
      unescapeNotes (escapeNotes (toIcal t).1.notes) else []) =
      (toIcal t).1.notes := by
    by_cases hn : (toIcal t).1.notes = []
    · rw [if_neg (fun hq => hq hn), hn]
    · rw [if_pos hn]
      apply unescape_escapeNotes
      rw [toIcal_fst_notes]
      exact hnob
  have hFprio : (if (toIcal t).1.priority ≠ 0 then
      (pyIntParse (intToStr (toIcal t).1.priority)).getD 0 else 0) =
      (toIcal t).1.priority := by
    by_cases hz : (toIcal t).1.priority = 0
    · rw [if_neg (fun hq => hq hz), hz]
    · rw [if_pos hz]
      obtain ⟨n, hn⟩ : ∃ n : Nat, (toIcal t).1.priority = (n : Int) := by
        refine ⟨(toIcal t).1.priority.toNat, ?_⟩
        rw [Int.toNat_of_nonneg]
        rw [toIcal_fst_priority]
        exact hpr1
      rw [hn, pyIntParse_intToStr_ofNat]
      rfl
  have hFtags : (if (toIcal t).1.tags ≠ [] then
      (if joinWith ',' (toIcal t).1.tags ≠ [] then
        List.filter (fun tg => decide (tg ≠ []))
          (List.map pyStrip (splitComma (joinWith ',' (toIcal t).1.tags)))
      else [])
      else []) = (toIcal t).1.tags := by
    have htags2 : ∀ tg ∈ (toIcal t).1.tags,
        tg ≠ [] ∧ noBr tg ∧ ',' ∉ tg ∧ pyStrip tg = tg := by
      rw [toIcal_fst_tags]
      exact htags
    by_cases ht : (toIcal t).1.tags = []
    · rw [if_neg (fun hq => hq ht), ht]
    · rw [if_pos ht]
      have hjw : joinWith ',' (toIcal t).1.tags ≠ [] := by
        cases hcase : (toIcal t).1.tags with
        | nil => exact absurd hcase ht
        | cons x r =>
          apply joinWith_ne_nil
          exact (htags2 x (by rw [hcase]; exact List.mem_cons_self x r)).1
      rw [if_pos hjw,
        splitComma_joinWith _ ht (fun tg htg => (htags2 tg htg).2.2.1),
        map_id_of_mem _ _ (fun tg htg => (htags2 tg htg).2.2.2),
        filter_id_of_mem _ _ ?_]
      intro tg htg
      simp only [ne_eq, decide_eq_true_eq]
      exact (htags2 tg htg).1
  have hFxs : List.foldl (fun m kv => dictInsert m kv.1 kv.2) []
      (toIcal t).1.x_properties = (toIcal t).1.x_properties := by
    rw [foldl_dictInsert _ _ ?_ ?_, List.nil_append]
    · rw [toIcal_fst_xs]
      exact hnodup
    · intro kv _ kv2 hkv2
      exact absurd hkv2 (List.not_mem_nil kv2)
  rw [hFnotes, hFprio, hFtags, hFxs, ite_ne_nil, ite_ne_nil, ite_ne_nil,
    ite_ne_nil]

theorem icalLines_eq_of_fields (a b : TaskData)
    (h1 : a.uid = b.uid) (h2 : a.text = b.text) (h3 : a.notes = b.notes)
    (h4 : a.created_at = b.created_at) (h5 : a.changed_at = b.changed_at)
    (h6 : a.completed = b.completed)
    (h7 : a.percent_complete = b.percent_complete)
    (h8 : a.due_date = b.due_date) (h9 : a.start_date = b.start_date)
    (h10 : a.priority = b.priority) (h11 : a.parent = b.parent)
    (h12 : a.tags = b.tags) (h13 : a.rrule = b.rrule)
    (h14 : a.x_properties = b.x_properties) :
    icalLines a = icalLines b := by
  rw [icalLines, icalLines, h1, h2, h3, h4, h5, h6, h7, h8, h9, h10, h11,
    h12, h13, h14]

theorem roundtrip_encode (t R : TaskData)
    (h1 : R.uid = (toIcal t).1.uid) (h2 : R.text = (toIcal t).1.text)
    (h3 : R.notes = (toIcal t).1.notes)
    (h4 : R.created_at = (toIcal t).1.created_at)
    (h5 : R.changed_at = (toIcal t).1.changed_at)
    (h6 : R.completed = (toIcal t).1.completed)
    (h7 : R.percent_complete = (toIcal t).1.percent_complete)
    (h8 : R.due_date = (toIcal t).1.due_date)
    (h9 : R.start_date = (toIcal t).1.start_date)
    (h10 : R.priority = (toIcal t).1.priority)
    (h11 : R.parent = (toIcal t).1.parent)
    (h12 : R.tags = (toIcal t).1.tags)
    (h13 : R.rrule = (toIcal t).1.rrule)
    (h14 : R.x_properties = (toIcal t).1.x_properties) :
    (toIcal R).2 = (toIcal t).2 := by
  have hcond : ¬(R.completed = true ∧ R.percent_complete < 100) := by
    rw [h6, h7]
    exact toIcal_fst_fix t
  have hR1 : (toIcal R).1 = R := by
    rw [toIcal_fst, if_neg hcond]
  rw [toIcal_snd, toIcal_snd, hR1]
  refine congrArg joinNl (congrArg (fun ls => ls ++ ["END:VTODO".data]) ?_)
  exact icalLines_eq_of_fields R (toIcal t).1 h1 h2 h3 h4 h5 h6 h7 h8 h9
    h10 h11 h12 h13 h14

set_option maxRecDepth 40000 in
/-- C8 counterexample: encoding a completed record with stored
`percent_complete = 0` mutates the record (the stored percent becomes
100), so `to_ical` does not leave every field of its input unchanged. -/
theorem c8_counterexample : (toIcal c8task).1 ≠ c8task := by decide

/-- C8 amended: `to_ical` leaves its input unchanged except that
`percent_complete` is overwritten with 100 exactly when the record is
completed with a stored percent below 100. -/
theorem c8_encode_mutation (t : TaskData) :
    (toIcal t).1 = { t with percent_complete :=
      if t.completed = true ∧ t.percent_complete < 100 then 100
      else t.percent_complete } := by
  rw [toIcal_fst]
  by_cases hc : t.completed = true ∧ t.percent_complete < 100
  · rw [if_pos hc, if_pos hc]
  · rw [if_neg hc, if_neg hc]

/-! ## C3: the PERCENT-COMPLETE line of a completed record -/

theorem joinNl_mem_split (l : Str) (ls : List Str) (h : l ∈ ls) :
    ∃ a b, joinNl ls = a ++ (l ++ ['\n']) ++ b := by
  induction ls with
  | nil => exact absurd h (List.not_mem_nil l)
  | cons x r ih =>
    rcases List.mem_cons.mp h with rfl | h2
    · exact ⟨[], joinNl r, by rw [joinNl_cons]; simp⟩
    · obtain ⟨a, b, hab⟩ := ih h2
      exact ⟨x ++ ['\n'] ++ a, b, by rw [joinNl_cons, hab]; simp⟩

set_option maxRecDepth 40000 in
/-- C3 counterexample: for a completed record with stored percent 150 the
encoding does not contain `PERCENT-COMPLETE:100` anywhere (the encoder
only raises a stored percent below 100, it never lowers one above). -/
theorem c3_counterexample :
    containsSub (toIcal c3task).2 "PERCENT-COMPLETE:100".data = false := by
  decide

/-- C3 amended: encoding a completed record always emits a
`PERCENT-COMPLETE` line, whose value is 100 when the stored percent was
below 100 and the stored value itself otherwise. -/
theorem c3_completion_consistency (t : TaskData)
    (h : t.completed = true) :
    containsSub (toIcal t).2
      ("PERCENT-COMPLETE:".data ++
        intToStr (if t.percent_complete < 100 then 100
          else t.percent_complete) ++ ['\n']) = true := by
  have hpc : (toIcal t).1.percent_complete =
      if t.percent_complete < 100 then 100 else t.percent_complete := by
    rw [toIcal_fst]
    by_cases hlt : t.percent_complete < 100
    · rw [if_pos ⟨h, hlt⟩, if_pos hlt]
    · rw [if_neg (fun hq => hlt hq.2), if_neg hlt]
  obtain ⟨a, b, hab⟩ := joinNl_mem_split
    ("PERCENT-COMPLETE:".data ++ intToStr (toIcal t).1.percent_complete)
    (icalLines (toIcal t).1 ++ ["END:VTODO".data])
    (by
      apply List.mem_append_left
      rw [icalLines]
      exact List.mem_cons_of_mem _ (List.mem_cons_of_mem _
        (List.mem_cons_of_mem _ (List.mem_append_right _
          (List.mem_cons_of_mem _ (List.mem_cons_of_mem _
            (List.mem_cons_of_mem _ (List.mem_cons_self _ _))))))))
  rw [← hpc, toIcal_snd, hab]
  exact containsSub_of_append a _ b

theorem c3_witness : c3task.completed = true ∧
    containsSub (toIcal c3task).2
      ("PERCENT-COMPLETE:".data ++
        intToStr (if c3task.percent_complete < 100 then 100
          else c3task.percent_complete) ++ ['\n']) = true :=
  ⟨rfl, c3_completion_consistency c3task rfl⟩

/-! ## C2: decoding a block with no UID line -/

set_option maxRecDepth 40000 in
/-- C2: decoding a block with no UID line.  The claim (and the code's own
comment at the dead branch) wants a fresh uid with `synced = false`; the
code instead returns the `__post_init__`-generated uid with
`synced = true`, because `task.uid` is never empty when the fallback is
tested. -/
theorem c2_no_uid_decode :
    (fromIcal "20250101T000000Z".data "fresh-uid-1".data
      "fresh-uid-2".data "BEGIN:VTODO\nSUMMARY:x\nEND:VTODO\n".data
      "L1".data).map (fun r => (r.uid, r.synced)) =
      some ("fresh-uid-1".data, true) := by decide

/-! ## C6: changed_at defaulting on a DTSTAMP-only block -/

set_option maxRecDepth 40000 in
/-- C6: decoding a block with `DTSTAMP` but no `LAST-MODIFIED`.  The claim
wants `changed_at = created_at` (the DTSTAMP value); the code returns the
decode-time timestamp in `changed_at`, because `__post_init__` pre-fills
it so the defaulting branch never fires. -/
theorem c6_changed_at_not_defaulted :
    (fromIcal "20250601T000000Z".data "f1".data "f2".data
      "BEGIN:VTODO\nUID:u1\nDTSTAMP:20240101T000000Z\nEND:VTODO\n".data
      "L1".data).map (fun r => (r.created_at, r.changed_at)) =
      some ("20240101T000000Z".data, "20250601T000000Z".data) := by decide

/-! ## C7: numeric parse totality -/

set_option maxRecDepth 40000 in
/-- C7 counterexample: a `PERCENT-COMPLETE` value that parses as an
out-of-range float (`1e999`, an infinite Python float) makes the decode
fail — `int(float(value))` raises an uncaught `OverflowError`, modelled by
`fromIcal` returning `none` — instead of defaulting the field to 0. -/
theorem c7_counterexample :
    fromIcal "20250101T000000Z".data "f1".data "f2".data
      "BEGIN:VTODO\nUID:u1\nPERCENT-COMPLETE:1e999\nEND:VTODO\n".data
      "L1".data = none := by decide

/-- C7 amended: a `PRIORITY` value always parses (invalid values default
the field to 0 via `(pyIntParse v).getD 0`); a `PERCENT-COMPLETE` value
parses through `percentBranch`, which defaults to 0 on ordinary parse
failures but is `none` (an uncaught `OverflowError`) on values that parse
as floats too large for an integer conversion. -/
theorem c7_numeric_defaults (task : TaskData) (v : Str) :
    parseLine task ("PRIORITY:".data ++ v) =
      some { task with priority := (pyIntParse v).getD 0 } ∧
    parseLine task ("PERCENT-COMPLETE:".data ++ v) =
      (percentBranch v).map
        (fun n => { task with percent_complete := n }) :=
  ⟨parseLine_priority task v, parseLine_percent task v⟩

/-- C5: fixed encoding order and omission policy — the encoder's output
is exactly the spec-ordered block over the record's fields, DUE and
DTSTART carrying `;VALUE=DATE` exactly when the value has no `T` time
marker; the `PERCENT-COMPLETE` line carries the percent of the record
state the encoder commits, `(toIcal t).1.percent_complete`. -/
theorem c5_fixed_order (t : TaskData) :
    (toIcal t).2 = specEncode t (toIcal t).1.percent_complete := by
  rw [toIcal_snd, specEncode]
  refine congrArg joinNl (congrArg (fun ls => ls ++ ["END:VTODO".data]) ?_)
  rw [icalLines, specLines, toIcal_fst_uid, toIcal_fst_text,
    toIcal_fst_notes, toIcal_fst_created, toIcal_fst_changed,
    toIcal_fst_completed, toIcal_fst_due, toIcal_fst_start,
    toIcal_fst_priority, toIcal_fst_parent, toIcal_fst_tags,
    toIcal_fst_rrule, toIcal_fst_xs,
    show specEscapeDesc = escapeNotes from rfl,
    show specEscapeX = escapeX from rfl]

/-! ## C9: containment and lookup agree on the X-property map -/

theorem takeUntil_reconstruct (c : Char) (s : Str) (h : c ∈ s) :
    s = takeUntil c s ++ c :: afterFirst c s := by
  induction s with
  | nil => exact absurd h (List.not_mem_nil c)
  | cons d t ih =>
    by_cases hd : d = c
    · subst hd
      simp [takeUntil, afterFirst, List.takeWhile_cons,
        List.dropWhile_cons]
    · rcases List.mem_cons.mp h with hc | hc
      · exact absurd hc.symm hd
      · have e1 : takeUntil c (d :: t) = d :: takeUntil c t := by
          simp [takeUntil, List.takeWhile_cons, hd]
        have e2 : afterFirst c (d :: t) = afterFirst c t := by
          simp [afterFirst, List.dropWhile_cons, hd]
        rw [e1, e2, List.cons_append]
        exact congrArg (d :: ·) (ih hc)

theorem splitHyphen2_three (s a b c : Str)
    (h : splitHyphen2 s = [a, b, c]) :
    s = a ++ '-' :: (b ++ '-' :: c) := by
  rw [splitHyphen2] at h
  by_cases h1 : '-' ∈ s
  · rw [if_pos h1] at h
    simp only at h
    by_cases h2 : '-' ∈ afterFirst '-' s
    · rw [if_pos h2] at h
      injection h with e1 h
      injection h with e2 h
      injection h with e3 _
      subst e1
      subst e2
      subst e3
      rw [← takeUntil_reconstruct '-' (afterFirst '-' s) h2]
      exact takeUntil_reconstruct '-' s h1
    · rw [if_neg h2] at h
      simp at h
  · rw [if_neg h1] at h
    simp at h

theorem toLowerStr_append (a b : Str) :
    toLowerStr (a ++ b) = toLowerStr a ++ toLowerStr b := by
  simp [toLowerStr]

theorem toLowerStr_cons (c : Char) (t : Str) :
    toLowerStr (c :: t) = c.toLower :: toLowerStr t := by
  simp [toLowerStr]

theorem strategy3_subsumed (k kk : Str) (p1 p2 u q1 q2 ru : Str)
    (hk : splitHyphen2 k = [p1, p2, u])
    (hkk : splitHyphen2 kk = [q1, q2, ru])
    (h12 : toLowerStr (p1 ++ '-' :: p2) = toLowerStr (q1 ++ '-' :: q2))
    (hu : toLowerStr u = toLowerStr ru) :
    toLowerStr kk = toLowerStr k := by
  have hre : ∀ (a b c : Str),
      a ++ '-' :: (b ++ '-' :: c) = (a ++ '-' :: b) ++ '-' :: c := by
    intro a b c
    simp
  rw [splitHyphen2_three k p1 p2 u hk, splitHyphen2_three kk q1 q2 ru hkk,
    hre, hre,
    show toLowerStr ((q1 ++ '-' :: q2) ++ '-' :: ru) =
      toLowerStr (q1 ++ '-' :: q2) ++ toLowerStr ('-' :: ru) from
      toLowerStr_append _ _,
    show toLowerStr ((p1 ++ '-' :: p2) ++ '-' :: u) =
      toLowerStr (p1 ++ '-' :: p2) ++ toLowerStr ('-' :: u) from
      toLowerStr_append _ _,
    h12, toLowerStr_cons, toLowerStr_cons, hu]

/-- C9: containment and lookup agree on the extension-property map — for
every map `m` and key `k`, `__contains__` answers true exactly when
`__getitem__` succeeds; in particular the third (namespace+id) containment
strategy never accepts a key the case-insensitive full-key comparison
rejects. -/
theorem c9_contains_iff_get (m : List (Str × Str)) (k : Str) :
    xContains m k = (xGet m k).isSome := by
  rw [xContains, xGet]
  by_cases h1 : m.any (fun kv => kv.1 = k) = true
  · rw [if_pos h1]
    obtain ⟨kv, hkv, hp⟩ := List.any_eq_true.mp h1
    cases hfind : m.find? (fun kv => kv.1 = k) with
    | none => exact absurd hp (by simpa using List.find?_eq_none.mp hfind kv hkv)
    | some kv2 => rfl
  · rw [if_neg h1]
    have h1' : m.find? (fun kv => kv.1 = k) = none :=
      List.find?_eq_none.mpr (fun x hx hpx =>
        h1 (List.any_eq_true.mpr ⟨x, hx, hpx⟩))
    rw [h1']
    by_cases h2 : m.any (fun kv => toLowerStr kv.1 = toLowerStr k) = true
    · rw [if_pos h2]
      obtain ⟨kv, hkv, hp⟩ := List.any_eq_true.mp h2
      cases hfind : m.find? (fun kv => toLowerStr kv.1 = toLowerStr k) with
      | none =>
        exact absurd hp (by simpa using List.find?_eq_none.mp hfind kv hkv)
      | some kv2 => rfl
    · rw [if_neg h2]
      have h2' : m.find? (fun kv => toLowerStr kv.1 = toLowerStr k) =
          none :=
        List.find?_eq_none.mpr (fun x hx hpx =>
          h2 (List.any_eq_true.mpr ⟨x, hx, hpx⟩))
      rw [h2']
      cases hsp : splitHyphen2 k with
      | nil => rfl
      | cons a rest =>
        cases rest with
        | nil => rfl
        | cons b rest2 =>
          cases rest2 with
          | nil => rfl
          | cons u rest3 =>
            cases rest3 with
            | cons d rest4 => rfl
            | nil =>
              refine List.any_eq_false.mpr ?_
              intro kv hkv hinner
              rcases hsp2 : splitHyphen2 kv.1 with _ | ⟨q1, r1⟩
              · rw [hsp2] at hinner
                exact absurd hinner (by simp)
              rcases r1 with _ | ⟨q2, r2⟩
              · rw [hsp2] at hinner
                exact absurd hinner (by simp)
              rcases r2 with _ | ⟨ru, r3⟩
              · rw [hsp2] at hinner
                exact absurd hinner (by simp)
              rcases r3 with _ | ⟨e, r4⟩
              · rw [hsp2] at hinner
                have hin := of_decide_eq_true hinner
                apply h2
                refine List.any_eq_true.mpr ⟨kv, hkv, ?_⟩
                simpa using strategy3_subsumed k kv.1 a b u q1 q2 ru hsp
                  hsp2 hin.1 hin.2
              · rw [hsp2] at hinner
                exact absurd hinner (by simp)

/-- C4 counterexample: with every tier raising, `update_task` does not
leave `synced` at its prior value — the prior value is `false`, yet the
returned record carries `synced = true`. -/
theorem c4_counterexample :
    c4task.synced = false ∧
    (updateTask c4env "T1".data "T2".data "f1".data "f2".data
      c4task).1.synced = true := by decide

/-- C4 amended: when the collection and item are found and the direct
tier and every fallback tier raise, none of those tier exceptions
propagates; the call's outcome is decided solely by the post-ladder
re-parse of the server body.  With an empty body, or a body whose
re-parse succeeds, `update_task` returns normally with `synced = true`
(not the prior value); only when the re-parse itself raises (an uncaught
decode error, re-raised by the outer handler) does the call raise, with
`synced = false`. -/
theorem c4_ladder_exhaustion_soft (env : UpdEnv) (now now2 f1 f2 : Str)
    (t0 : TaskData) (cal : CalCollection) (todo : ServerTodo)
    (h1 : env.readOnly = false) (h2 : t0.uid ≠ [])
    (h3 : t0.list_uid ≠ [])
    (hcal : env.calendars.find? (fun c => c.id = t0.list_uid) = some cal)
    (htodo : (cal.todos.find? (fun p => p.1 = t0.uid)).map Prod.snd =
      some todo)
    (hd : todo.directRaises = true) (hf : todo.fullReplaceRaises = true)
    (hu : todo.updatePropsRaises = true)
    (hs : todo.setSummaryRaises = true) :
    (todo.data = [] →
      (updateTask env now now2 f1 f2 t0).2 = none ∧
      (updateTask env now now2 f1 f2 t0).1.synced = true) ∧
    (∀ r, fromIcal now2 f1 f2 todo.data t0.list_uid = some r →
      (updateTask env now now2 f1 f2 t0).2 = none ∧
      (updateTask env now now2 f1 f2 t0).1.synced = true) ∧
    (todo.data ≠ [] →
      fromIcal now2 f1 f2 todo.data t0.list_uid = none →
      (updateTask env now now2 f1 f2 t0).2 = some UpdErr.reraised ∧
      (updateTask env now now2 f1 f2 t0).1.synced = false) := by
  refine ⟨?_, ?_, ?_⟩
  · intro hdata
    rw [updateTask, if_neg (by rw [h1]; simp), if_neg h2, if_neg h3]
    dsimp only
    by_cases hc : t0.completed = true ∧ t0.percent_complete < 100
    · rw [if_pos hc]
      dsimp only
      rw [hcal]
      dsimp only
      rw [htodo]
      dsimp only
      rw [hd, if_pos rfl, hdata, if_neg (fun hq => hq rfl)]
      exact ⟨rfl, rfl⟩
    · rw [if_neg hc]
      dsimp only
      rw [hcal]
      dsimp only
      rw [htodo]
      dsimp only
      rw [hd, if_pos rfl, hdata, if_neg (fun hq => hq rfl)]
      exact ⟨rfl, rfl⟩
  · intro r hr
    by_cases hdata : todo.data = []
    · rw [updateTask, if_neg (by rw [h1]; simp), if_neg h2, if_neg h3]
      dsimp only
      by_cases hc : t0.completed = true ∧ t0.percent_complete < 100
      · rw [if_pos hc]
        dsimp only
        rw [hcal]
        dsimp only
        rw [htodo]
        dsimp only
        rw [hd, if_pos rfl, hdata, if_neg (fun hq => hq rfl)]
        exact ⟨rfl, rfl⟩
      · rw [if_neg hc]
        dsimp only
        rw [hcal]
        dsimp only
        rw [htodo]
        dsimp only
        rw [hd, if_pos rfl, hdata, if_neg (fun hq => hq rfl)]
        exact ⟨rfl, rfl⟩
    · rw [updateTask, if_neg (by rw [h1]; simp), if_neg h2, if_neg h3]
      dsimp only
      by_cases hc : t0.completed = true ∧ t0.percent_complete < 100
      · rw [if_pos hc]
        dsimp only
        rw [hcal]
        dsimp only
        rw [htodo]
        dsimp only
        rw [hd, if_pos rfl, if_pos hdata, toIcal_fst_listuid]
        dsimp only
        rw [hr]
        exact ⟨rfl, rfl⟩
      · rw [if_neg hc]
        dsimp only
        rw [hcal]
        dsimp only
        rw [htodo]
        dsimp only
        rw [hd, if_pos rfl, if_pos hdata, toIcal_fst_listuid]
        dsimp only
        rw [hr]
        exact ⟨rfl, rfl⟩
  · intro hdata hnone
    rw [updateTask, if_neg (by rw [h1]; simp), if_neg h2, if_neg h3]
    dsimp only
    by_cases hc : t0.completed = true ∧ t0.percent_complete < 100
    · rw [if_pos hc]
      dsimp only
      rw [hcal]
      dsimp only
      rw [htodo]
      dsimp only
      rw [hd, if_pos rfl, if_pos hdata, toIcal_fst_listuid]
      dsimp only
      rw [hnone]
      exact ⟨rfl, rfl⟩
    · rw [if_neg hc]
      dsimp only
      rw [hcal]
      dsimp only
      rw [htodo]
      dsimp only
      rw [hd, if_pos rfl, if_pos hdata, toIcal_fst_listuid]
      dsimp only
      rw [hnone]
      exact ⟨rfl, rfl⟩

theorem c4_ladder_witness :
    (updateTask c4env "T1".data "T2".data "f1".data "f2".data
      c4task).2 = none ∧
    (updateTask c4env "T1".data "T2".data "f1".data "f2".data
      c4task).1.synced = true :=
  (c4_ladder_exhaustion_soft c4env "T1".data "T2".data "f1".data
    "f2".data c4task { id := "L1".data, todos := [("u1".data, c4todo)] }
    c4todo rfl (by decide) (by decide) rfl rfl rfl rfl rfl rfl).1 rfl

/-! ## C10: the not-found error paths mutate the record first -/

/-- C10: both not-found error paths of `update_task` (collection absent,
item absent) return a `ValueError` together with a record that was
already mutated before the failure — `changed_at` overwritten with the
current timestamp, `percent_complete` forced to 100 when completed below
100, and `synced` set to `false`. -/
theorem c10_error_path_mutates (env : UpdEnv) (now now2 f1 f2 : Str)
    (t0 : TaskData)
    (h1 : env.readOnly = false) (h2 : t0.uid ≠ [])
    (h3 : t0.list_uid ≠ [])
    (hmiss : env.calendars.find? (fun c => c.id = t0.list_uid) = none ∨
      ∃ cal, env.calendars.find? (fun c => c.id = t0.list_uid) =
          some cal ∧
        cal.todos.find? (fun p => p.1 = t0.uid) = none) :
    updateTask env now now2 f1 f2 t0 =
      ({ t0 with
          changed_at := now,
          percent_complete :=
            (if t0.completed = true ∧ t0.percent_complete < 100 then 100
              else t0.percent_complete),
          synced := false }, some UpdErr.valueErr) := by
  rw [updateTask, if_neg (by rw [h1]; simp), if_neg h2, if_neg h3]
  dsimp only
  by_cases hc : t0.completed = true ∧ t0.percent_complete < 100
  · rw [if_pos hc, if_pos hc]
    rcases hmiss with hnone | ⟨cal, hcal, htodo⟩
    · rw [hnone]
    · rw [hcal]
      dsimp only
      rw [htodo]
      rfl
  · rw [if_neg hc, if_neg hc]
    rcases hmiss with hnone | ⟨cal, hcal, htodo⟩
    · rw [hnone]
    · rw [hcal]
      dsimp only
      rw [htodo]
      rfl

theorem c10_witness :
    updateTask c10env "TS".data "T2".data "f1".data "f2".data c10task =
      ({ c10task with
          changed_at := "TS".data,
          percent_complete :=
            (if c10task.completed = true ∧
              c10task.percent_complete < 100 then 100
              else c10task.percent_complete),
          synced := false }, some UpdErr.valueErr) :=
  c10_error_path_mutates c10env "TS".data "T2".data "f1".data "f2".data
    c10task rfl (by decide) (by decide)
    (Or.inr ⟨{ id := "L1".data, todos := [] }, rfl, rfl⟩)
